import Mathlib

/-!
The email-svr job dispatch and retry subsystem.

A shallow embedding of the retry policy (`pkg/jobqueue/retry.go`), the job record
(`pkg/jobqueue/interface.go`) and the dispatcher's retry scheduling
(`internal/mailer/dispatcher.go`), with theorems about them.

Conventions of the embedding

* `time.Time` is an integer count of nanoseconds on one time line.  `time.Duration` is an
  `int64` count of nanoseconds: the arithmetic on durations inside
  `CalculateNextRetryDelay` wraps around at `2^63` (`wrap64`).  Retry counts (Go's `int`)
  and clock readings are integers without a bound.
* A `float64` value (`Float64`) is a finite number, an infinity or NaN; a finite value is
  the rational number it stands for.  The conversion `float64(n)` of an integer rounds to
  the nearest number with a 53-bit significand, ties to even (`float64OfInt`; it is exact
  up to `2^53`).  The product of two `float64` values is the exact product rounded in the
  same way (`roundFloat`), and `0 * Inf` is NaN (`Float64.scale`); the constant `0.1` is
  the `float64` value next to it (`mulTenth`).  A comparison with NaN is false.  The
  conversion `time.Duration(f)` cuts the fraction off and yields the least `int64` when
  the result does not fit an `int64` and when `f` is infinite or NaN, as the conversion
  instruction of amd64 does (`durationOfFloat`, `Float64.toDuration`; Go leaves these
  cases to the implementation).
* `math.Pow(x, y)` at a whole number `y` (`mathPow`) is the exact power, `+Inf` for
  `x = 0` and `y < 0`, and an infinity when the power is `2^1024` or more.  Go's
  `math.Pow` forms the power by rounded multiplications: it is exact for a multiplier
  `2^k` and for the exponents 0 and 1, and a `float64` near the exact power otherwise;
  that rounding inside `math.Pow` is not modelled.  Nor are the rounding of
  `float64(retryCount)` for a retry count of `2^53` or more in absolute value, a
  multiplier that is NaN, infinite or the negative zero, and the bounds of the exponent
  of a finite product (see `roundFloat`).  The theorems that state an equation for the
  delay at every retry count keep to multipliers `2^k`.
* `time.Now()` is an explicit argument, one argument for every place the code reads the
  clock.
* A run-time panic (integer division by zero) is the result `none`.
* Side effects are returned as a list of `Effect`s, in program order.
* The in-memory queue (`internal/queue/memory.go`) is a Go channel: a capacity, the
  buffered jobs oldest first, and the closed flag.  Its calls are executed one at a time
  and end in an `Outcome`: they return, panic, or block.  Where `select` finds both the
  channel case and the `ctx.Done()` case ready, Go picks one at random; the pick is the
  argument `pick` (true for the channel case).
* The worker loop (`internal/mailer/worker.go`) is a step function on the program points
  of `processJobs`; the template engine and the mail transport are arguments.
-/

namespace jobqueue

/-- The duration unit `time.Nanosecond`. -/
def Nanosecond : Int := 1

/-- The duration unit `time.Second`. -/
def Second : Int := 1000000000 * Nanosecond

/-- The duration unit `time.Minute`. -/
def Minute : Int := 60 * Second

/-- An attachment of a job (`Attachment`). -/
structure Attachment where
  Filename : String
  Content : String
  URL : String
deriving DecidableEq

/-- The job record (`EmailJob`).  Template data, a `map[string]any`, is kept as a list of
key and rendered value. -/
structure EmailJob where
  To : String
  Subject : String
  Body : String
  RetryCount : Int
  MaxRetries : Int
  NextRetryAt : Int
  CreatedAt : Int
  LastError : String
  TemplateID : String
  TemplateData : List (String × String)
  Attachments : List Attachment
deriving DecidableEq

/-- The retry configuration (`RetryConfig`).  The multiplier is a finite `float64` value,
a whole number divided by a power of two. -/
structure RetryConfig where
  MaxRetries : Int
  BaseDelay : Int
  MaxDelay : Int
  BackoffMultiple : ℚ
  JitterEnabled : Bool
deriving DecidableEq

/-- The default retry configuration (`DefaultRetryConfig`). -/
def DefaultRetryConfig : RetryConfig :=
  { MaxRetries := 3
    BaseDelay := 1 * Minute
    MaxDelay := 30 * Minute
    BackoffMultiple := 2
    JitterEnabled := true }

/-- The retry manager (`RetryManager`). -/
structure RetryManager where
  config : RetryConfig
deriving DecidableEq

/-- The constructor `NewRetryManager`: a nil configuration is replaced by the default. -/
def NewRetryManager (config : Option RetryConfig) : RetryManager :=
  match config with
  | none => { config := DefaultRetryConfig }
  | some c => { config := c }

/-- The method `ShouldRetry`. -/
def ShouldRetry (_rm : RetryManager) (job : EmailJob) : Bool :=
  decide (job.RetryCount < job.MaxRetries)

/-- The number of low bits that `float64(a)` drops from a natural number `a`: the number
of halvings that bring `a` below `2^53`.  The first argument bounds the number of
halvings; `a` itself is enough. -/
def droppedBits : Nat → Nat → Nat
  | 0, _ => 0
  | fuel + 1, a => if a < 2 ^ 53 then 0 else droppedBits fuel (a / 2) + 1

/-- The conversion `float64(a)` of a natural number: the nearest number with a 53-bit
significand, a tie going to the even significand. -/
def float64OfNat (a : Nat) : Nat :=
  let k := droppedBits a a
  let q := a / 2 ^ k
  let rem := a % 2 ^ k
  if 2 ^ k < 2 * rem ∨ (2 * rem = 2 ^ k ∧ q % 2 = 1) then (q + 1) * 2 ^ k else q * 2 ^ k

/-- The conversion `float64(n)` of an `int64`: the value of the float, a whole number. -/
def float64OfInt (n : Int) : Int :=
  if 0 ≤ n then (float64OfNat n.toNat : Int) else -(float64OfNat (-n).toNat : Int)

/-- The rounding of the exact result `x` of a `float64` operation to a 53-bit significand,
to the nearest, ties to even.  The operands being `float64` values, `x` is a whole number
divided by a power of two, and its numerator is rounded.  The bounds of the exponent are
left out: a result of `2^1024` or more stays the finite number it is, which compares with
the cap and converts to a duration like the infinity the code forms, and a result below
`2^-1022` keeps 53 bits, which does not change its whole part. -/
def roundFloat (x : ℚ) : ℚ :=
  (float64OfInt x.num : ℚ) / (x.den : ℚ)

/-- The result of an `int64` operation whose exact result is `x`: wrap-around at `2^63`. -/
def wrap64 (x : Int) : Int :=
  (x + 2 ^ 63) % 2 ^ 64 - 2 ^ 63

/-- The whole part of a float: truncation toward zero. -/
def truncate (f : ℚ) : Int :=
  if 0 ≤ f then ⌊f⌋ else ⌈f⌉

/-- The conversion `time.Duration(f)` of a float: truncation toward zero, and the least
`int64` when the whole part does not fit an `int64`. -/
def durationOfFloat (f : ℚ) : Int :=
  if -(2 ^ 63) ≤ truncate f ∧ truncate f < 2 ^ 63 then truncate f else -(2 ^ 63)

/-- A `float64` value: a finite number, an infinity, or NaN.  A finite value is the
rational number it stands for; the two zeros are not told apart. -/
inductive Float64 where
  | finite (q : ℚ)
  | posInf
  | negInf
  | nan

/-- The function `math.Pow(x, y)` for a finite `x` and a whole number `y`: `+Inf` for
`x = 0` and `y < 0`, the infinity of the sign of the power when the power is `2^1024` or
more in absolute value, and the power otherwise, taken exactly. -/
def mathPow (x : ℚ) (y : Int) : Float64 :=
  if x = 0 ∧ y < 0 then Float64.posInf
  else if 2 ^ 1024 ≤ |x ^ y| then (if 0 < x ^ y then Float64.posInf else Float64.negInf)
  else Float64.finite (x ^ y)

/-- The product `a * p` of a finite `float64` value `a` and a `float64` value `p`: the
exact product rounded to a 53-bit significand, and NaN for `0 * Inf`. -/
def Float64.scale (a : ℚ) : Float64 → Float64
  | Float64.finite p => Float64.finite (roundFloat (a * p))
  | Float64.posInf =>
    if 0 < a then Float64.posInf else if a < 0 then Float64.negInf else Float64.nan
  | Float64.negInf =>
    if 0 < a then Float64.negInf else if a < 0 then Float64.posInf else Float64.nan
  | Float64.nan => Float64.nan

/-- The comparison `f > c` with a finite `c`; it is false when `f` is NaN. -/
def Float64.gt (f : Float64) (c : ℚ) : Bool :=
  match f with
  | Float64.finite q => decide (q > c)
  | Float64.posInf => true
  | Float64.negInf => false
  | Float64.nan => false

/-- The conversion `time.Duration(f)` of a `float64` value: the least `int64` for an
infinity and for NaN, as on amd64. -/
def Float64.toDuration : Float64 → Int
  | Float64.finite q => durationOfFloat q
  | Float64.posInf => -(2 ^ 63)
  | Float64.negInf => -(2 ^ 63)
  | Float64.nan => -(2 ^ 63)

/-- The `float64` product `f * 0.1` for a `float64` value `f` that is a whole number.  The
constant `0.1` is the `float64` value `3602879701896397 / 2^55`, and the exact product, a
multiple of `2^-55`, is rounded to a 53-bit significand. -/
def mulTenth (f : Int) : ℚ :=
  (float64OfInt (f * 3602879701896397) : ℚ) / 2 ^ 55

/-- The method `CalculateNextRetryDelay`.  `unixNano` is the value of
`time.Now().UnixNano()`, read only when jitter is enabled.  Go's `%` is the truncated
remainder and panics on a zero divisor. -/
def CalculateNextRetryDelay (rm : RetryManager) (retryCount : Int) (unixNano : Int) :
    Option Int :=
  let delay : Float64 :=
    Float64.scale (float64OfInt rm.config.BaseDelay)
      (mathPow rm.config.BackoffMultiple retryCount)
  let delay : Float64 :=
    if delay.gt (float64OfInt rm.config.MaxDelay) then
      Float64.finite (float64OfInt rm.config.MaxDelay)
    else delay
  let duration : Int := delay.toDuration
  if rm.config.JitterEnabled then
    let jitter : Int := durationOfFloat (mulTenth (float64OfInt duration))
    if wrap64 (jitter * 2) = 0 then none
    else some (wrap64 (duration + wrap64 (Int.tmod unixNano (wrap64 (jitter * 2)) - jitter)))
  else some duration

/-- The value of the variable `duration` of `CalculateNextRetryDelay` before the jitter:
the capped delay as a duration. -/
def cappedDelay (rm : RetryManager) (retryCount : Int) : Int :=
  (if (Float64.scale (float64OfInt rm.config.BaseDelay)
        (mathPow rm.config.BackoffMultiple retryCount)).gt (float64OfInt rm.config.MaxDelay)
    then Float64.finite (float64OfInt rm.config.MaxDelay)
    else Float64.scale (float64OfInt rm.config.BaseDelay)
      (mathPow rm.config.BackoffMultiple retryCount)).toDuration

/-- The value of the variable `jitter` of `CalculateNextRetryDelay` for the duration `d`:
`time.Duration(float64(d) * 0.1)`. -/
def jitterAmplitude (d : Int) : Int :=
  durationOfFloat (mulTenth (float64OfInt d))

/-- The method `PrepareRetry`.  `err` is the text of `err.Error()`, `unixNano` the clock
reading inside `CalculateNextRetryDelay`, `now` the reading of `time.Now()` that the delay
is added to. -/
def PrepareRetry (rm : RetryManager) (job : EmailJob) (err : String) (unixNano now : Int) :
    Option EmailJob :=
  let job := { job with RetryCount := job.RetryCount + 1 }
  let job := { job with LastError := err }
  match CalculateNextRetryDelay rm (job.RetryCount - 1) unixNano with
  | none => none
  | some delay => some { job with NextRetryAt := now + delay }

/-- The method `CreateJobWithRetry`; `now1` and `now2` are its two clock readings. -/
def CreateJobWithRetry (rm : RetryManager) (recipient subject body : String) (now1 now2 : Int) :
    EmailJob :=
  { To := recipient
    Subject := subject
    Body := body
    RetryCount := 0
    MaxRetries := rm.config.MaxRetries
    NextRetryAt := now1
    CreatedAt := now2
    LastError := ""
    TemplateID := ""
    TemplateData := []
    Attachments := [] }

/-- The method `IsReadyForRetry`; `now1` and `now2` are its two clock readings, the second
one taken only when the first comparison fails. -/
def IsReadyForRetry (_rm : RetryManager) (job : EmailJob) (now1 now2 : Int) : Bool :=
  decide (now1 > job.NextRetryAt) || decide (now2 = job.NextRetryAt)

/-- The configuration of the scenario of the specification (its section 8):
`maxRetries=3`, `baseDelay=1s`, `backoffMultiplier=2.0`, jitter disabled, with the cap
`maxDelay` left open. -/
def scenarioConfig (maxDelay : Int) : RetryConfig :=
  { MaxRetries := 3
    BaseDelay := 1 * Second
    MaxDelay := maxDelay
    BackoffMultiple := 2
    JitterEnabled := false }

/-- A configuration with non-negative base delay and cap and a negative multiplier. -/
def negativeMultiplierConfig : RetryConfig :=
  { MaxRetries := 3
    BaseDelay := 1 * Second
    MaxDelay := 30 * Second
    BackoffMultiple := -2
    JitterEnabled := false }

/-- The default configuration with the base delay set to zero. -/
def zeroBaseConfig : RetryConfig :=
  { DefaultRetryConfig with BaseDelay := 0 }

/-- The default configuration with the cap set to zero. -/
def zeroCapConfig : RetryConfig :=
  { DefaultRetryConfig with MaxDelay := 0 }

/-- The default configuration with a base delay of 5 nanoseconds. -/
def tinyBaseConfig : RetryConfig :=
  { DefaultRetryConfig with BaseDelay := 5 * Nanosecond }

/-- A configuration whose cap, `2^53 + 3` ns, is not a `float64`: base delay `2^60` ns,
multiplier 1, jitter disabled. -/
def roundedCapConfig : RetryConfig :=
  { MaxRetries := 3
    BaseDelay := 1152921504606846976 * Nanosecond
    MaxDelay := 9007199254740995 * Nanosecond
    BackoffMultiple := 1
    JitterEnabled := false }

/-- The scenario configuration with cap 30s and the multiplier `1.4`, that is the
`float64` value `6305039478318694 / 2^52` next to it. -/
def scenario14Config : RetryConfig :=
  { scenarioConfig (30 * Second) with BackoffMultiple := 6305039478318694 / 2 ^ 52 }

/-- A fresh job as `CreateJobWithRetry` builds it under the scenario configuration, at
clock reading 0: retry count 0, at most 3 retries. -/
def scenarioJob : EmailJob :=
  CreateJobWithRetry { config := scenarioConfig (30 * Second) } "a@example.org" "hello" "text" 0 0

/-- The zero value `time.Time{}`, on a time line that counts from the Unix epoch. -/
def zeroTime : Int := -62135596800 * Second

/-- The zero value `EmailJob{}`. -/
def zeroJob : EmailJob :=
  { To := ""
    Subject := ""
    Body := ""
    RetryCount := 0
    MaxRetries := 0
    NextRetryAt := zeroTime
    CreatedAt := zeroTime
    LastError := ""
    TemplateID := ""
    TemplateData := []
    Attachments := [] }

end jobqueue

namespace queue

open jobqueue

/-- The errors the in-memory queue returns: `ErrQueueFull`, and the two values of
`ctx.Err()`, `context.Canceled` and `context.DeadlineExceeded`. -/
inductive Error where
  | ErrQueueFull
  | Canceled
  | DeadlineExceeded
deriving DecidableEq

/-- A `context.Context` as the queue sees it: live, or done by cancellation or by its
deadline. -/
inductive Context where
  | live
  | canceled
  | deadlineExceeded
deriving DecidableEq

/-- Whether the channel `ctx.Done()` is closed. -/
def Context.isDone : Context → Bool
  | Context.live => false
  | _ => true

/-- The method `ctx.Err()`. -/
def Context.Err : Context → Option Error
  | Context.live => none
  | Context.canceled => some Error.Canceled
  | Context.deadlineExceeded => some Error.DeadlineExceeded

/-- How a call ends: it returns a value, it panics, or it blocks. -/
inductive Outcome (α : Type) where
  | returned (value : α)
  | panics (msg : String)
  | blocks
deriving DecidableEq

/-- The in-memory queue (`MemoryQueue`): the state of its channel `jobChan`. -/
structure MemoryQueue where
  capacity : Nat
  jobs : List EmailJob
  closed : Bool
deriving DecidableEq

/-- The constructor `NewMemoryQueue`: `make(chan, bufferSize)` panics on a negative size. -/
def NewMemoryQueue (bufferSize : Int) : Outcome MemoryQueue :=
  if bufferSize < 0 then Outcome.panics "makechan: size out of range"
  else Outcome.returned { capacity := bufferSize.toNat, jobs := [], closed := false }

/-- Whether the send case `m.jobChan <- job` can proceed: the buffer has room, or the
channel is closed (the send then panics). -/
def sendReady (m : MemoryQueue) : Bool :=
  m.closed || decide (m.jobs.length < m.capacity)

/-- Whether the receive case `<-m.jobChan` can proceed: a job is buffered, or the channel
is closed (the receive then yields the zero value). -/
def recvReady (m : MemoryQueue) : Bool :=
  m.closed || !m.jobs.isEmpty

/-- The method `MemoryQueue.Push`: a `select` over the send, `ctx.Done()` and a default.
The result is the error returned (`none` for nil) and the queue after the call. -/
def Push (m : MemoryQueue) (ctx : Context) (job : EmailJob) (pick : Bool) :
    Outcome (Option Error × MemoryQueue) :=
  if sendReady m && (!ctx.isDone || pick) then
    if m.closed then Outcome.panics "send on closed channel"
    else Outcome.returned (none, { m with jobs := m.jobs ++ [job] })
  else if ctx.isDone then Outcome.returned (ctx.Err, m)
  else Outcome.returned (some Error.ErrQueueFull, m)

/-- The method `MemoryQueue.Pop`: a `select` over the receive and `ctx.Done()`, without a
default.  The result is the job and the error returned, and the queue after the call. -/
def Pop (m : MemoryQueue) (ctx : Context) (pick : Bool) :
    Outcome ((EmailJob × Option Error) × MemoryQueue) :=
  if recvReady m && (!ctx.isDone || pick) then
    match m.jobs with
    | job :: rest => Outcome.returned ((job, none), { m with jobs := rest })
    | [] => Outcome.returned ((zeroJob, none), m)
  else if ctx.isDone then Outcome.returned ((zeroJob, ctx.Err), m)
  else Outcome.blocks

/-- The method `MemoryQueue.Close`: `close(m.jobChan)`, which panics on a closed channel. -/
def Close (m : MemoryQueue) : Outcome (Option Error × MemoryQueue) :=
  if m.closed then Outcome.panics "close of closed channel"
  else Outcome.returned (none, { m with closed := true })

/-- The method `MemoryQueue.Size`: `len(m.jobChan)` and a nil error. -/
def Size (m : MemoryQueue) : Int × Option Error :=
  (m.jobs.length, none)

/-- An open queue of capacity 1 that holds one job: a full queue. -/
def fullQueue : MemoryQueue :=
  { capacity := 1, jobs := [scenarioJob], closed := false }

/-- One call of a sequence of `Push` and `Pop` calls, with its context and pick. -/
inductive Call where
  | push (ctx : Context) (pick : Bool) (job : EmailJob)
  | pop (ctx : Context) (pick : Bool)
deriving DecidableEq

/-- What a call of the sequence returned. -/
inductive Event where
  | pushed (err : Option Error)
  | popped (job : EmailJob) (err : Option Error)
deriving DecidableEq

/-- A sequence of calls made one after another by one caller.  The result is what the
calls returned and the queue at the end; a call that panics or blocks ends the sequence. -/
def run (m : MemoryQueue) : List Call → List Event × MemoryQueue
  | [] => ([], m)
  | Call.push ctx pick job :: rest =>
    match Push m ctx job pick with
    | Outcome.returned (err, m1) => ((Event.pushed err :: (run m1 rest).1), (run m1 rest).2)
    | _ => ([], m)
  | Call.pop ctx pick :: rest =>
    match Pop m ctx pick with
    | Outcome.returned ((job, err), m1) =>
      ((Event.popped job err :: (run m1 rest).1), (run m1 rest).2)
    | _ => ([], m)

/-- The number of `Push` calls that returned nil. -/
def pushedOk : List Event → Nat
  | [] => 0
  | Event.pushed none :: rest => pushedOk rest + 1
  | _ :: rest => pushedOk rest

/-- The number of `Pop` calls that returned a job with a nil error. -/
def poppedOk : List Event → Nat
  | [] => 0
  | Event.popped _ none :: rest => poppedOk rest + 1
  | _ :: rest => poppedOk rest

/-- Jobs pushed one after another, each with its context and pick: the queue afterwards,
provided every `Push` returned nil. -/
def pushMany (m : MemoryQueue) : List (Context × Bool × EmailJob) → Option MemoryQueue
  | [] => some m
  | (ctx, pick, job) :: rest =>
    match Push m ctx job pick with
    | Outcome.returned (none, m1) => pushMany m1 rest
    | _ => none

/-- Pops made one after another, each with its context and pick: the jobs returned, in
order, and the queue afterwards, provided every `Pop` returned a nil error. -/
def popMany (m : MemoryQueue) : List (Context × Bool) → Option (List EmailJob × MemoryQueue)
  | [] => some ([], m)
  | (ctx, pick) :: rest =>
    match Pop m ctx pick with
    | Outcome.returned ((job, none), m1) =>
      match popMany m1 rest with
      | some (jobs, m2) => some (job :: jobs, m2)
      | none => none
    | _ => none

end queue

namespace mailer

open jobqueue

/-- The observable actions of the dispatcher and worker code, in program order: a log
line, the call `time.AfterFunc(delay, f)` where `f` is the callback that pushes `job` to
the job queue, a call of `jobQueue.Push` with `job`, the delivery action `sendEmail` on
the message built from `job`, and `time.Sleep(d)`. -/
inductive Effect where
  | logError (msg : String)
  | logInfo (msg : String)
  | logDebug (msg : String)
  | afterFunc (delay : Int) (job : EmailJob)
  | push (job : EmailJob)
  | deliver (job : EmailJob)
  | sleep (d : Int)
deriving DecidableEq

/-- The dispatcher (`Dispatcher`), reduced to the fields the retry path reads. -/
structure Dispatcher where
  maxWorkers : Int
  retryManager : RetryManager
deriving DecidableEq

/-- The constructor `NewDispatcher`: the retry manager is always built from a nil
configuration, that is, with the default one. -/
def NewDispatcher (maxWorkers : Int) : Dispatcher :=
  { maxWorkers := maxWorkers
    retryManager := NewRetryManager none }

/-- The library function `time.Until(t)`, that is `t.Sub(now)`: the difference, saturated
to the range of a `time.Duration`. -/
def Until (t now : Int) : Int :=
  max (-(2 ^ 63)) (min (2 ^ 63 - 1) (t - now))

/-- The method `Dispatcher.ScheduleRetry`.  The result is the caller's job after the call
(the method writes through the pointer) and the actions performed; `unixNano` and `now`
are the clock readings inside `PrepareRetry`, `untilNow` the one inside `time.Until`. -/
def ScheduleRetry (d : Dispatcher) (job : EmailJob) (err : String)
    (unixNano now untilNow : Int) : Option (EmailJob × List Effect) :=
  if !ShouldRetry d.retryManager job then
    some (job, [Effect.logError "Task failed permanently"])
  else
    match PrepareRetry d.retryManager job err unixNano now with
    | none => none
    | some retryJob =>
      let delay := Until retryJob.NextRetryAt untilNow
      some (retryJob, [Effect.logInfo "Retry scheduled", Effect.afterFunc delay retryJob])

/-- The jobs for which a list of actions schedules a deferred re-push. -/
def repushes : List Effect → List EmailJob
  | [] => []
  | Effect.afterFunc _ job :: rest => job :: repushes rest
  | _ :: rest => repushes rest

/-- The jobs a list of actions pushes to the job queue. -/
def pushes : List Effect → List EmailJob
  | [] => []
  | Effect.push job :: rest => job :: pushes rest
  | _ :: rest => pushes rest

/-- The callback `ScheduleRetry` hands to `time.AfterFunc`, run when the timer fires: it
pushes the job and logs the outcome; `pushOk` tells whether `Push` returned nil. -/
def retryCallback (job : EmailJob) (pushOk : Bool) : List Effect :=
  if pushOk then [Effect.push job, Effect.logDebug "Retry rescheduled successfully"]
  else [Effect.push job, Effect.logError "Failed to reschedule retry"]

/-- The clock readings of one call of `ScheduleRetry`. -/
structure Readings where
  unixNano : Int
  now : Int
  untilNow : Int
deriving DecidableEq

/-- Consecutive failed attempts of one job.  Every failure (its error text and clock
readings) is handled by `ScheduleRetry`; the job attempted next is the one whose re-push
was scheduled.  When no re-push is scheduled the job is gone and no further attempt takes
place.  The result lists, for every failure handled, the job after the call and the
actions of the call. -/
def consecutiveFailures (d : Dispatcher) :
    EmailJob → List (String × Readings) → Option (List (EmailJob × List Effect))
  | _, [] => some []
  | job, (err, c) :: rest =>
    match ScheduleRetry d job err c.unixNano c.now c.untilNow with
    | none => none
    | some (job1, effects) =>
      match repushes effects with
      | [] => some [(job1, effects)]
      | next :: _ =>
        match consecutiveFailures d next rest with
        | none => none
        | some trace => some ((job1, effects) :: trace)

/-- What the template engine does for a job that carries a template id:
`template.ParseFiles` fails, or it succeeds and `Execute` writes `output` to the buffer
(`failed` tells whether `Execute` returned an error). -/
inductive Rendering where
  | parseFailed
  | executed (output : String) (failed : Bool)
deriving DecidableEq

/-- The worker (`Worker`), reduced to the fields the loop reads; the retry scheduler is
the dispatcher, the only implementation of `RetryScheduler`. -/
structure Worker where
  ID : Int
  retryManager : RetryManager
  retryScheduler : Dispatcher
deriving DecidableEq

/-- The worker number `id` as `Dispatcher.Run` builds it: `NewWorker` with the
dispatcher's retry manager, then `SetRetryScheduler(d)`. -/
def workerOf (d : Dispatcher) (id : Int) : Worker :=
  { ID := id
    retryManager := d.retryManager
    retryScheduler := d }

/-- The method `Worker.processJob` on its own copy of the job.  `rendering` is what the
template engine does, `sendErr` the error of `sendEmail` (`none` for nil), `c` the clock
readings of `ScheduleRetry`.  The result is the copy at the end and the actions; `none`
is a panic: after a failed `ParseFiles` the template is nil and `Execute` dereferences
it.  The attachment loop reads the job without changing it and is left out. -/
def processJob (w : Worker) (job : EmailJob) (rendering : Rendering)
    (sendErr : Option String) (c : Readings) : Option (EmailJob × List Effect) :=
  let start := [Effect.logInfo "Starting to process job", Effect.logInfo "Processing email"]
  let rendered : Option (EmailJob × List Effect) :=
    if job.TemplateID ≠ "" then
      match rendering with
      | Rendering.parseFailed => none
      | Rendering.executed output failed =>
        some ({ job with Body := output },
          if failed then [Effect.logError "Failed to execute template"] else [])
    else some (job, [])
  match rendered with
  | none => none
  | some (job, renderLog) =>
    match sendErr with
    | some err =>
      match ScheduleRetry w.retryScheduler job err c.unixNano c.now c.untilNow with
      | none => none
      | some (job1, effects) =>
        some (job1, start ++ renderLog
          ++ [Effect.deliver job, Effect.logError "Failed to send email"] ++ effects)
    | none =>
      some (job, start ++ renderLog
        ++ [Effect.deliver job, Effect.logInfo "Successfully sent email"])

/-- The inputs of one step of the worker loop: the pick of `select` inside `Pop`, the two
clock readings of `IsReadyForRetry`, the reading of `time.Until`, and the inputs of
`processJob`. -/
structure StepInput where
  pick : Bool
  now1 : Int
  now2 : Int
  untilNow : Int
  rendering : Rendering
  sendErr : Option String
  retry : Readings
deriving DecidableEq

/-- What `processJobs` does with a job `Pop` returned: a job that is not ready is handed
to `time.AfterFunc` for a later push, a ready one goes to `processJob`. -/
def handleJob (w : Worker) (job : EmailJob) (i : StepInput) : Option (List Effect) :=
  if !IsReadyForRetry w.retryManager job i.now1 i.now2 then
    some [Effect.logDebug "Job not ready for retry, delaying",
          Effect.afterFunc (Until job.NextRetryAt i.untilNow) job]
  else
    match processJob w job i.rendering i.sendErr i.retry with
    | none => none
    | some (_, effects) => some effects

/-- The program points of `processJobs`: at the top of the loop (the outer `select`), at
the call of `Pop` after the default branch was taken (possibly parked in it), and after
the return. -/
inductive WorkerState where
  | waiting
  | popping
  | stopped
deriving DecidableEq

/-- What the workers and the dispatcher share: the dispatcher's context and the queue. -/
structure World where
  ctx : queue.Context
  queue : queue.MemoryQueue
deriving DecidableEq

/-- The result of one step: the next program point, the shared state, the job `Pop`
handed to the worker in this step, and the actions. -/
structure StepResult where
  state : WorkerState
  world : World
  obtained : Option EmailJob
  effects : List Effect
deriving DecidableEq

/-- One step of `Worker.processJobs`, from one program point to the next; `none` is a
panic. -/
def step (w : Worker) (s : WorkerState) (world : World) (i : StepInput) :
    Option StepResult :=
  match s with
  | WorkerState.stopped =>
    some { state := WorkerState.stopped, world := world, obtained := none, effects := [] }
  | WorkerState.waiting =>
    if world.ctx.isDone then
      some { state := WorkerState.stopped, world := world, obtained := none,
             effects := [Effect.logInfo "Worker shutting down"] }
    else
      some { state := WorkerState.popping, world := world, obtained := none, effects := [] }
  | WorkerState.popping =>
    match queue.Pop world.queue world.ctx i.pick with
    | queue.Outcome.panics _ => none
    | queue.Outcome.blocks =>
      some { state := WorkerState.popping, world := world, obtained := none, effects := [] }
    | queue.Outcome.returned ((_, some err), q) =>
      if err = queue.Error.Canceled ∨ err = queue.Error.DeadlineExceeded then
        some { state := WorkerState.waiting, world := { world with queue := q },
               obtained := none, effects := [] }
      else
        some { state := WorkerState.waiting, world := { world with queue := q },
               obtained := none,
               effects := [Effect.logDebug "Failed to pop job from queue",
                           Effect.sleep Second] }
    | queue.Outcome.returned ((job, none), q) =>
      match handleJob w job i with
      | none => none
      | some effects =>
        some { state := WorkerState.waiting, world := { world with queue := q },
               obtained := some job, effects := effects }

/-- The call `d.cancel()` on the dispatcher's context. -/
def cancel : queue.Context → queue.Context
  | queue.Context.live => queue.Context.canceled
  | ctx => ctx

/-- The method `Dispatcher.Stop` on the shared state: cancel, then close the queue;
`none` is a panic. -/
def Stop (world : World) : Option (World × List Effect) :=
  match queue.Close world.queue with
  | queue.Outcome.returned (none, q) =>
    some ({ ctx := cancel world.ctx, queue := q },
      [Effect.logInfo "Stopping dispatcher and all workers"])
  | queue.Outcome.returned (some _, q) =>
    some ({ ctx := cancel world.ctx, queue := q },
      [Effect.logInfo "Stopping dispatcher and all workers",
       Effect.logError "Error closing job queue"])
  | _ => none

/-- The deliveries among a list of actions. -/
def deliveries : List Effect → List EmailJob
  | [] => []
  | Effect.deliver job :: rest => job :: deliveries rest
  | _ :: rest => deliveries rest

/-- A job that carries a template id and, as `QueueEmailJobs` builds it, an empty body. -/
def templateJob : EmailJob :=
  { scenarioJob with Body := "", TemplateID := "welcome.html" }

/-- A shared state before `Stop`: a live context and an open queue that holds one job. -/
def busyWorld : World :=
  { ctx := queue.Context.live
    queue := { capacity := 10, jobs := [scenarioJob], closed := false } }

/-- The shared state `Stop` makes of `busyWorld`: the context cancelled, the queue closed,
the job still buffered. -/
def stoppedWorld : World :=
  { ctx := queue.Context.canceled
    queue := { capacity := 10, jobs := [scenarioJob], closed := true } }

/-- Inputs of a step in which `select` picks the channel case, the clock reads 5 and the
delivery succeeds. -/
def channelPick : StepInput :=
  { pick := true
    now1 := 5
    now2 := 5
    untilNow := 5
    rendering := Rendering.executed "" false
    sendErr := none
    retry := { unixNano := 0, now := 5, untilNow := 5 } }

/-- What a trace of `consecutiveFailures` shows of one failure: the retry count of the
job after the call, and the retry counts of the jobs whose re-push was scheduled. -/
def observed (p : EmailJob × List Effect) : Int × List Int :=
  (p.1.RetryCount, (repushes p.2).map EmailJob.RetryCount)

end mailer

namespace jobqueue

/-- C1: `ShouldRetry` answers true exactly when the job's retry count is below the job's
own maximum, and the answer is the same under every manager (configuration). -/
theorem ShouldRetry_iff_lt (rm : RetryManager) (job : EmailJob) :
    (ShouldRetry rm job = true ↔ job.RetryCount < job.MaxRetries) ∧
      ∀ rm2 : RetryManager, ShouldRetry rm2 job = ShouldRetry rm job := by
  refine ⟨?_, fun _ => rfl⟩
  simp [ShouldRetry]

/-- A number below `2^53` drops no bit. -/
theorem droppedBits_of_lt (fuel : Nat) {a : Nat} (h : a < 2 ^ 53) : droppedBits fuel a = 0 := by
  cases fuel with
  | zero => rfl
  | succ f => rw [droppedBits, if_pos h]

/-- A number of at least `2^53` drops at least one bit, and keeps at least 53 bits. -/
theorem droppedBits_spec (fuel : Nat) : ∀ a : Nat, 2 ^ 53 ≤ a →
    1 ≤ droppedBits (fuel + 1) a ∧ 2 ^ 52 ≤ a / 2 ^ droppedBits (fuel + 1) a := by
  induction fuel with
  | zero =>
    intro a ha
    have h : droppedBits (0 + 1) a = 1 := by
      rw [droppedBits, if_neg (Nat.not_lt.mpr ha)]
      rfl
    rw [h]
    refine ⟨le_refl _, ?_⟩
    omega
  | succ f ih =>
    intro a ha
    have h : droppedBits (f + 1 + 1) a = droppedBits (f + 1) (a / 2) + 1 := by
      rw [droppedBits, if_neg (Nat.not_lt.mpr ha)]
    rw [h]
    refine ⟨Nat.le_add_left _ _, ?_⟩
    have e : a / 2 ^ (droppedBits (f + 1) (a / 2) + 1)
        = a / 2 / 2 ^ droppedBits (f + 1) (a / 2) := by
      rw [Nat.pow_succ', Nat.div_div_eq_div_mul]
    rw [e]
    rcases Nat.lt_or_ge (a / 2) (2 ^ 53) with hlt | hge
    · rw [droppedBits_of_lt _ hlt]
      omega
    · exact (ih (a / 2) hge).2

/-- The conversion `float64(a)` is exact below `2^53`. -/
theorem float64OfNat_of_lt {a : Nat} (h : a < 2 ^ 53) : float64OfNat a = a := by
  simp [float64OfNat, droppedBits_of_lt a h, Nat.mod_one]

/-- A number of at least `2^53` keeps at least 53 bits and drops at least one. -/
theorem droppedBits_self {a : Nat} (h : 2 ^ 53 ≤ a) :
    1 ≤ droppedBits a a ∧ 2 ^ 52 ≤ a / 2 ^ droppedBits a a := by
  have e : a - 1 + 1 = a := by omega
  have := droppedBits_spec (a - 1) a h
  rwa [e] at this

/-- The conversion `float64(a)` of a number of at least `2^53` is at least `2^53`. -/
theorem le_float64OfNat {a : Nat} (h : 2 ^ 53 ≤ a) : 2 ^ 53 ≤ float64OfNat a := by
  obtain ⟨h1, h2⟩ := droppedBits_self h
  have hk : 2 ^ 53 ≤ a / 2 ^ droppedBits a a * 2 ^ droppedBits a a := by
    calc 2 ^ 53 = 2 ^ 52 * 2 ^ 1 := by norm_num
      _ ≤ a / 2 ^ droppedBits a a * 2 ^ droppedBits a a :=
        Nat.mul_le_mul h2 (Nat.pow_le_pow_right (by norm_num) h1)
  unfold float64OfNat
  simp only []
  split_ifs
  · calc 2 ^ 53 ≤ a / 2 ^ droppedBits a a * 2 ^ droppedBits a a := hk
      _ ≤ (a / 2 ^ droppedBits a a + 1) * 2 ^ droppedBits a a :=
        Nat.mul_le_mul_right _ (Nat.le_succ _)
  · exact hk

/-- The conversion `float64(n)` is exact for an integer between `-2^53` and `2^53`. -/
theorem float64OfInt_of_lt {n : Int} (h1 : -(2 ^ 53) < n) (h2 : n < 2 ^ 53) :
    float64OfInt n = n := by
  unfold float64OfInt
  split_ifs with h
  · rw [float64OfNat_of_lt (by omega)]
    omega
  · rw [float64OfNat_of_lt (by omega)]
    omega

/-- The conversion `float64(n)` does not fall below a whole number `m < 2^53` that `n`
reaches. -/
theorem le_float64OfInt {m n : Int} (h0 : 0 ≤ m) (h1 : m < 2 ^ 53) (h : m ≤ n) :
    m ≤ float64OfInt n := by
  rcases lt_or_le n (2 ^ 53) with hn | hn
  · rw [float64OfInt_of_lt (by omega) hn]
    exact h
  · have h53 : 2 ^ 53 ≤ float64OfNat n.toNat := le_float64OfNat (by omega)
    simp only [float64OfInt, if_pos (show (0 : Int) ≤ n by omega)]
    omega

/-- An `int64` operation whose exact result fits an `int64` gives that result. -/
theorem wrap64_of_range {x : Int} (h1 : -(2 ^ 63) ≤ x) (h2 : x < 2 ^ 63) : wrap64 x = x := by
  unfold wrap64
  omega

/-- Truncation toward zero keeps a whole number. -/
theorem truncate_intCast (n : Int) : truncate (n : ℚ) = n := by
  unfold truncate
  split_ifs <;> simp

/-- Truncation toward zero keeps the sign of a non-negative value. -/
theorem truncate_nonneg {f : ℚ} (h : 0 ≤ f) : 0 ≤ truncate f := by
  simp only [truncate, if_pos h]
  exact Int.floor_nonneg.mpr h

/-- Truncation toward zero is monotone. -/
theorem truncate_mono {a b : ℚ} (h : a ≤ b) : truncate a ≤ truncate b := by
  unfold truncate
  split_ifs with ha hb hb
  · exact Int.floor_mono h
  · exact absurd (ha.trans h) hb
  · have h1 : ⌈a⌉ ≤ 0 := Int.ceil_le.mpr (by push_cast; linarith)
    have h2 : 0 ≤ ⌊b⌋ := Int.floor_nonneg.mpr hb
    omega
  · exact Int.ceil_mono h

/-- The conversion `time.Duration(f)` is the truncation when that fits an `int64`. -/
theorem durationOfFloat_of_range {f : ℚ} (h1 : -(2 ^ 63) ≤ truncate f)
    (h2 : truncate f < 2 ^ 63) : durationOfFloat f = truncate f := by
  rw [durationOfFloat, if_pos ⟨h1, h2⟩]

/-- The conversion `time.Duration(f)` of a whole number. -/
theorem durationOfFloat_intCast (n : Int) :
    durationOfFloat (n : ℚ) = if -(2 ^ 63) ≤ n ∧ n < 2 ^ 63 then n else -(2 ^ 63) := by
  rw [durationOfFloat, truncate_intCast]

/-- The conversion `float64(a)` does not fall below a power of two that `a` reaches. -/
theorem pow_le_float64OfNat {a m : Nat} (h : 2 ^ m ≤ a) : 2 ^ m ≤ float64OfNat a := by
  rcases Nat.lt_or_ge a (2 ^ 53) with h53 | h53
  · rw [float64OfNat_of_lt h53]
    exact h
  · obtain ⟨h1, h2b⟩ := droppedBits_self h53
    have hk : 2 ^ m ≤ a / 2 ^ droppedBits a a * 2 ^ droppedBits a a := by
      rcases Nat.le_total (droppedBits a a) m with hkm | hkm
      · have e : 2 ^ m = 2 ^ (m - droppedBits a a) * 2 ^ droppedBits a a := by
          rw [← Nat.pow_add, Nat.sub_add_cancel hkm]
        rw [e]
        apply Nat.mul_le_mul_right
        rw [Nat.le_div_iff_mul_le (Nat.two_pow_pos _), ← e]
        exact h
      · calc 2 ^ m ≤ 2 ^ droppedBits a a := Nat.pow_le_pow_right (by norm_num) hkm
          _ = 1 * 2 ^ droppedBits a a := (Nat.one_mul _).symm
          _ ≤ a / 2 ^ droppedBits a a * 2 ^ droppedBits a a :=
            Nat.mul_le_mul_right _ (le_trans (by norm_num) h2b)
    unfold float64OfNat
    simp only []
    split_ifs
    · calc 2 ^ m ≤ a / 2 ^ droppedBits a a * 2 ^ droppedBits a a := hk
        _ ≤ (a / 2 ^ droppedBits a a + 1) * 2 ^ droppedBits a a :=
          Nat.mul_le_mul_right _ (Nat.le_succ _)
    · exact hk

/-- The conversion `float64(a)` exceeds `a` by at most `a / 2^53`. -/
theorem float64OfNat_le (a : Nat) : 2 ^ 53 * float64OfNat a ≤ (2 ^ 53 + 1) * a := by
  rcases Nat.lt_or_ge a (2 ^ 53) with h | h
  · rw [float64OfNat_of_lt h]
    omega
  · obtain ⟨-, h2b⟩ := droppedBits_self h
    have hdm := Nat.div_add_mod a (2 ^ droppedBits a a)
    have hA : 2 ^ 52 * 2 ^ droppedBits a a
        ≤ 2 ^ droppedBits a a * (a / 2 ^ droppedBits a a) := by
      rw [Nat.mul_comm]
      exact Nat.mul_le_mul_left _ h2b
    unfold float64OfNat
    simp only []
    generalize 2 ^ droppedBits a a = P at *
    generalize a / P = q at *
    generalize a % P = rem at *
    split_ifs with hc
    · have hP : P ≤ 2 * rem := by
        rcases hc with hc | hc <;> omega
      have e : (q + 1) * P = P * q + P := by ring
      rw [e]
      generalize P * q = A at *
      omega
    · have e : q * P = P * q := Nat.mul_comm _ _
      rw [e]
      generalize P * q = A at *
      omega

/-- The conversion `float64(n)` of an integer of at least 0 is at least 0. -/
theorem float64OfInt_nonneg {n : Int} (h : 0 ≤ n) : 0 ≤ float64OfInt n := by
  simp only [float64OfInt, if_pos h]
  exact Int.ofNat_nonneg _

/-- The conversion `float64(n)` exceeds an integer `n ≥ 0` by at most `n / 2^53`. -/
theorem float64OfInt_le {n : Int} (h : 0 ≤ n) : 2 ^ 53 * float64OfInt n ≤ (2 ^ 53 + 1) * n := by
  simp only [float64OfInt, if_pos h]
  have := float64OfNat_le n.toNat
  have hn : (n.toNat : Int) = n := Int.toNat_of_nonneg h
  have h2 : (2 ^ 53 : Int) * (float64OfNat n.toNat : Int) ≤ (2 ^ 53 + 1) * (n.toNat : Int) := by
    exact_mod_cast this
  rwa [hn] at h2

/-- The rounding of a whole number is its conversion `float64(n)`. -/
theorem roundFloat_intCast (n : Int) : roundFloat (n : ℚ) = (float64OfInt n : ℚ) := by
  simp [roundFloat]

/-- The rounding of a value of at least 0 is at least 0. -/
theorem roundFloat_nonneg {x : ℚ} (h : 0 ≤ x) : 0 ≤ roundFloat x := by
  unfold roundFloat
  have h1 : (0 : ℚ) ≤ (float64OfInt x.num : ℚ) := by
    exact_mod_cast float64OfInt_nonneg (Rat.num_nonneg.mpr h)
  positivity

/-- The rounding of a value `x ≥ 0` exceeds it by at most `x / 2^53`. -/
theorem roundFloat_le {x : ℚ} (h : 0 ≤ x) : 2 ^ 53 * roundFloat x ≤ (2 ^ 53 + 1) * x := by
  have h1 : (2 ^ 53 : ℚ) * (float64OfInt x.num : ℚ) ≤ (2 ^ 53 + 1) * (x.num : ℚ) := by
    exact_mod_cast float64OfInt_le (Rat.num_nonneg.mpr h)
  have hden : (0 : ℚ) < (x.den : ℚ) := by exact_mod_cast x.den_pos
  have hx : (x.num : ℚ) = x * (x.den : ℚ) := (Rat.mul_den_eq_num x).symm
  unfold roundFloat
  rw [← mul_div_assoc, div_le_iff₀ hden]
  calc (2 ^ 53 : ℚ) * (float64OfInt x.num : ℚ) ≤ (2 ^ 53 + 1) * (x.num : ℚ) := h1
    _ = (2 ^ 53 + 1) * x * (x.den : ℚ) := by rw [hx]; ring

/-- Truncation toward zero of a value below a whole number is below that number. -/
theorem truncate_lt {f : ℚ} {n : Int} (h0 : 0 ≤ f) (h : f < n) : truncate f < n := by
  simp only [truncate, if_pos h0]
  exact Int.floor_lt.mpr h

/-- Without jitter the method returns the capped delay. -/
theorem calculate_of_noJitter (rm : RetryManager) (r : Int) (unixNano : Int)
    (hj : rm.config.JitterEnabled = false) :
    CalculateNextRetryDelay rm r unixNano = some (cappedDelay rm r) := by
  simp only [CalculateNextRetryDelay, hj]
  rfl

/-- With jitter the method perturbs the capped delay `d` by `unixNano % (2 * jitter) -
jitter`, and panics when `2 * jitter` is zero. -/
theorem calculate_of_jitter (rm : RetryManager) (r : Int) (unixNano : Int)
    (hj : rm.config.JitterEnabled = true) :
    CalculateNextRetryDelay rm r unixNano
      = if wrap64 (jitterAmplitude (cappedDelay rm r) * 2) = 0 then none
        else some (wrap64 (cappedDelay rm r
          + wrap64 (unixNano.tmod (wrap64 (jitterAmplitude (cappedDelay rm r) * 2))
              - jitterAmplitude (cappedDelay rm r)))) := by
  simp only [CalculateNextRetryDelay, hj]
  rfl

/-- Go's remainder `a % b` for a positive divisor lies strictly between `-b` and `b`. -/
theorem tmod_bounds_of_pos (a : Int) {b : Int} (hb : 0 < b) :
    -b < a.tmod b ∧ a.tmod b < b := by
  refine ⟨?_, Int.tmod_lt_of_pos a hb⟩
  obtain ⟨n, rfl⟩ := Int.eq_ofNat_of_zero_le hb.le
  have hn : 0 < n := by exact_mod_cast hb
  cases a with
  | ofNat m =>
    have := Int.tmod_nonneg (n : Int) (Int.ofNat_nonneg m)
    simp only [Int.ofNat_eq_coe] at *
    omega
  | negSucc m =>
    have h : (Int.negSucc m).tmod (n : Int) = -(((m + 1) % n : Nat) : Int) := rfl
    rw [h]
    have := Nat.mod_lt (m + 1) hn
    omega

/-- The jitter amplitude of a duration `0 ≤ d < 2^53` as a whole-number division: the
rounded product with the numerator of `0.1`, divided by `2^55`. -/
theorem jitterAmplitude_eq {d : Int} (h0 : 0 ≤ d) (h53 : d < 2 ^ 53) :
    jitterAmplitude d = float64OfInt (d * 3602879701896397) / 2 ^ 55 := by
  have hle := float64OfNat_le (d * 3602879701896397).toNat
  have hnn : (0 : Int) ≤ float64OfInt (d * 3602879701896397) := by
    simp only [float64OfInt, if_pos (show (0 : Int) ≤ d * 3602879701896397 by positivity)]
    exact Int.ofNat_nonneg _
  have hF : float64OfInt (d * 3602879701896397)
      = (float64OfNat (d * 3602879701896397).toNat : Int) := by
    simp only [float64OfInt, if_pos (show (0 : Int) ≤ d * 3602879701896397 by positivity)]
  have hq : (0 : ℚ) ≤ (float64OfInt (d * 3602879701896397) : ℚ) / 2 ^ 55 := by
    have : (0 : ℚ) ≤ (float64OfInt (d * 3602879701896397) : ℚ) := by exact_mod_cast hnn
    positivity
  have hfloor : truncate ((float64OfInt (d * 3602879701896397) : ℚ) / 2 ^ 55)
      = float64OfInt (d * 3602879701896397) / 2 ^ 55 := by
    simp only [truncate, if_pos hq]
    have := Rat.floor_intCast_div_natCast (float64OfInt (d * 3602879701896397)) (2 ^ 55)
    push_cast at this
    exact this
  have hup : float64OfInt (d * 3602879701896397) / 2 ^ 55 < 2 ^ 63 := by
    rw [hF]
    have hN : ((d * 3602879701896397).toNat : Int) = d * 3602879701896397 :=
      Int.toNat_of_nonneg (by positivity)
    have hle2 : (2 ^ 53 : Int) * (float64OfNat (d * 3602879701896397).toNat : Int)
        ≤ (2 ^ 53 + 1) * ((d * 3602879701896397).toNat : Int) := by exact_mod_cast hle
    rw [hN] at hle2
    omega
  rw [jitterAmplitude, float64OfInt_of_lt (by omega) h53, mulTenth,
    durationOfFloat_of_range (by rw [hfloor]; omega) (by rw [hfloor]; exact hup), hfloor]

/-- The jitter amplitude `j` of a duration `0 ≤ d < 2^53`: it is at least 0, `10 * j` is
at most `d + 1`, it is zero for `d < 10` and at least 1 for `d ≥ 10`. -/
theorem jitterAmplitude_bounds {d : Int} (h0 : 0 ≤ d) (h53 : d < 2 ^ 53) :
    0 ≤ jitterAmplitude d ∧ 10 * jitterAmplitude d ≤ d + 1 ∧
      (d < 10 → jitterAmplitude d = 0) ∧ (10 ≤ d → 1 ≤ jitterAmplitude d) := by
  rw [jitterAmplitude_eq h0 h53]
  have hpos : (0 : Int) ≤ d * 3602879701896397 := by positivity
  have hF : float64OfInt (d * 3602879701896397)
      = (float64OfNat (d * 3602879701896397).toNat : Int) := by
    simp only [float64OfInt, if_pos hpos]
  have hN : ((d * 3602879701896397).toNat : Int) = d * 3602879701896397 :=
    Int.toNat_of_nonneg hpos
  have hle : (2 ^ 53 : Int) * (float64OfNat (d * 3602879701896397).toNat : Int)
      ≤ (2 ^ 53 + 1) * ((d * 3602879701896397).toNat : Int) := by
    exact_mod_cast float64OfNat_le (d * 3602879701896397).toNat
  have hlow : 10 ≤ d → (2 ^ 55 : Int) ≤ (float64OfNat (d * 3602879701896397).toNat : Int) := by
    intro h10
    have h55 : 2 ^ 55 ≤ (d * 3602879701896397).toNat := by
      have : (2 ^ 55 : Int) ≤ ((d * 3602879701896397).toNat : Int) := by
        rw [hN]
        omega
      exact_mod_cast this
    exact_mod_cast pow_le_float64OfNat h55
  have hnn : (0 : Int) ≤ (float64OfNat (d * 3602879701896397).toNat : Int) :=
    Int.ofNat_nonneg _
  rw [hF]
  rw [hN] at hle
  generalize (float64OfNat (d * 3602879701896397).toNat : Int) = F at *
  refine ⟨by omega, by omega, fun h => by omega, fun h => ?_⟩
  have := hlow h
  omega

/-- With jitter and a capped delay `0 ≤ d < 2^53`, no `int64` operation wraps around, and
the method panics exactly when the jitter amplitude is zero. -/
theorem calculate_jitter_small (rm : RetryManager) (r : Int) (unixNano : Int)
    (hj : rm.config.JitterEnabled = true)
    (h0 : 0 ≤ cappedDelay rm r) (h53 : cappedDelay rm r < 2 ^ 53) :
    CalculateNextRetryDelay rm r unixNano
      = if jitterAmplitude (cappedDelay rm r) = 0 then none
        else some (cappedDelay rm r
          + (unixNano.tmod (jitterAmplitude (cappedDelay rm r) * 2)
              - jitterAmplitude (cappedDelay rm r))) := by
  obtain ⟨hj0, hj10, -, -⟩ := jitterAmplitude_bounds h0 h53
  rw [calculate_of_jitter rm r unixNano hj]
  have hw : wrap64 (jitterAmplitude (cappedDelay rm r) * 2)
      = jitterAmplitude (cappedDelay rm r) * 2 :=
    wrap64_of_range (by omega) (by omega)
  rw [hw]
  by_cases hz : jitterAmplitude (cappedDelay rm r) = 0
  · rw [if_pos hz, if_pos (by omega)]
  · rw [if_neg hz, if_neg (by omega)]
    have hb := tmod_bounds_of_pos unixNano (b := jitterAmplitude (cappedDelay rm r) * 2)
      (by omega)
    have hin : wrap64 (unixNano.tmod (jitterAmplitude (cappedDelay rm r) * 2)
          - jitterAmplitude (cappedDelay rm r))
        = unixNano.tmod (jitterAmplitude (cappedDelay rm r) * 2)
          - jitterAmplitude (cappedDelay rm r) :=
      wrap64_of_range (by omega) (by omega)
    rw [hin, wrap64_of_range (by omega) (by omega)]

/-- The power `math.Pow(x, y)` when it is finite. -/
theorem mathPow_of_lt (x : ℚ) (y : Int) (h0 : ¬(x = 0 ∧ y < 0)) (h : |x ^ y| < 2 ^ 1024) :
    mathPow x y = Float64.finite (x ^ y) := by
  rw [mathPow, if_neg h0, if_neg (not_le.mpr h)]

/-- The power `math.Pow(x, y)` of a non-negative `x` when it overflows. -/
theorem mathPow_of_le (x : ℚ) (y : Int) (hx : 0 ≤ x) (h0 : ¬(x = 0 ∧ y < 0))
    (h : 2 ^ 1024 ≤ |x ^ y|) : mathPow x y = Float64.posInf := by
  have hnn : (0 : ℚ) ≤ x ^ y := zpow_nonneg hx y
  have hpos : (0 : ℚ) < x ^ y := by
    rw [abs_of_nonneg hnn] at h
    exact lt_of_lt_of_le (by positivity) h
  rw [mathPow, if_neg h0, if_pos h, if_pos hpos]

/-- The capped delay when the power is the finite number `p`. -/
theorem cappedDelay_of_finite (rm : RetryManager) (r : Int) (p : ℚ)
    (hp : mathPow rm.config.BackoffMultiple r = Float64.finite p) :
    cappedDelay rm r
      = durationOfFloat (min (roundFloat ((float64OfInt rm.config.BaseDelay : ℚ) * p))
          (float64OfInt rm.config.MaxDelay : ℚ)) := by
  rw [cappedDelay, hp]
  simp only [Float64.scale, Float64.gt]
  rcases le_or_lt (roundFloat ((float64OfInt rm.config.BaseDelay : ℚ) * p))
    (float64OfInt rm.config.MaxDelay : ℚ) with h | h
  · rw [min_eq_left h, if_neg (by simpa using h)]
    rfl
  · rw [min_eq_right h.le, if_pos (by simpa using h)]
    rfl

/-- The capped delay when the power is `+Inf` and the base delay is above 0: the cap. -/
theorem cappedDelay_of_posInf (rm : RetryManager) (r : Int)
    (hp : mathPow rm.config.BackoffMultiple r = Float64.posInf)
    (hb : (0 : ℚ) < (float64OfInt rm.config.BaseDelay : ℚ)) :
    cappedDelay rm r = durationOfFloat (float64OfInt rm.config.MaxDelay : ℚ) := by
  rw [cappedDelay, hp]
  simp only [Float64.scale, if_pos hb, Float64.gt]
  rfl

/-- For a base delay above 0, a multiplier of at least 0, a retry count of at least 0 (or
a multiplier above 0) and a cap of at least 0 and below `2^53`, the capped delay lies
between 0 and the cap, and it is the truncated minimum of the rounded product and the cap
when the power is finite, and the cap when the power is infinite. -/
theorem cappedDelay_of_nonneg (rm : RetryManager) (r : Int)
    (hb : 0 < rm.config.BaseDelay)
    (hc1 : 0 ≤ rm.config.MaxDelay) (hc2 : rm.config.MaxDelay < 2 ^ 53)
    (hk : 0 ≤ rm.config.BackoffMultiple) (hr : 0 ≤ r ∨ 0 < rm.config.BackoffMultiple) :
    0 ≤ cappedDelay rm r ∧ cappedDelay rm r ≤ rm.config.MaxDelay ∧
      (|rm.config.BackoffMultiple ^ r| < 2 ^ 1024 →
        cappedDelay rm r
          = truncate (min (roundFloat ((float64OfInt rm.config.BaseDelay : ℚ)
              * rm.config.BackoffMultiple ^ r)) (rm.config.MaxDelay : ℚ))) ∧
      (2 ^ 1024 ≤ |rm.config.BackoffMultiple ^ r| → cappedDelay rm r = rm.config.MaxDelay) := by
  have hfb : ((1 : Int) : ℚ) ≤ (float64OfInt rm.config.BaseDelay : ℚ) := by
    exact_mod_cast le_float64OfInt (by norm_num) (by norm_num) (show (1 : Int) ≤ _ by omega)
  push_cast at hfb
  have hpow : (0 : ℚ) ≤ rm.config.BackoffMultiple ^ r := zpow_nonneg hk r
  have hx : (0 : ℚ) ≤ roundFloat ((float64OfInt rm.config.BaseDelay : ℚ)
      * rm.config.BackoffMultiple ^ r) :=
    roundFloat_nonneg (mul_nonneg (le_trans (by norm_num) hfb) hpow)
  have h0 : ¬(rm.config.BackoffMultiple = 0 ∧ r < 0) := by
    rintro ⟨h1, h2⟩
    rcases hr with hr | hr
    · omega
    · rw [h1] at hr
      exact lt_irrefl _ hr
  have hmin0 : (0 : ℚ) ≤ min (roundFloat ((float64OfInt rm.config.BaseDelay : ℚ)
      * rm.config.BackoffMultiple ^ r)) (rm.config.MaxDelay : ℚ) :=
    le_min hx (by exact_mod_cast hc1)
  have hlo := truncate_nonneg hmin0
  have hup : truncate (min (roundFloat ((float64OfInt rm.config.BaseDelay : ℚ)
      * rm.config.BackoffMultiple ^ r)) (rm.config.MaxDelay : ℚ)) ≤ rm.config.MaxDelay := by
    have := truncate_mono (min_le_right (roundFloat ((float64OfInt rm.config.BaseDelay : ℚ)
      * rm.config.BackoffMultiple ^ r)) (rm.config.MaxDelay : ℚ))
    rwa [truncate_intCast] at this
  have hfin : |rm.config.BackoffMultiple ^ r| < 2 ^ 1024 →
      cappedDelay rm r
        = truncate (min (roundFloat ((float64OfInt rm.config.BaseDelay : ℚ)
            * rm.config.BackoffMultiple ^ r)) (rm.config.MaxDelay : ℚ)) := by
    intro hov
    rw [cappedDelay_of_finite rm r _ (mathPow_of_lt _ _ h0 hov),
      float64OfInt_of_lt (by omega) hc2]
    exact durationOfFloat_of_range (by omega) (by omega)
  have hinf : 2 ^ 1024 ≤ |rm.config.BackoffMultiple ^ r| →
      cappedDelay rm r = rm.config.MaxDelay := by
    intro hov
    rw [cappedDelay_of_posInf rm r (mathPow_of_le _ _ hk h0 hov)
      (lt_of_lt_of_le (by norm_num) hfb),
      float64OfInt_of_lt (by omega) hc2, durationOfFloat_intCast, if_pos ⟨by omega, by omega⟩]
  refine ⟨?_, ?_, hfin, hinf⟩
  · rcases lt_or_le |rm.config.BackoffMultiple ^ r| (2 ^ 1024) with hov | hov
    · rw [hfin hov]; exact hlo
    · rw [hinf hov]; exact hc1
  · rcases lt_or_le |rm.config.BackoffMultiple ^ r| (2 ^ 1024) with hov | hov
    · rw [hfin hov]; exact hup
    · rw [hinf hov]

/-- The capped delay when the conversions of base delay and cap are `b` and `c`, the power
is finite and the exact product is the whole number `v`: the minimum of `float64(v)` and
`c`, converted to a duration. -/
theorem cappedDelay_eval (rm : RetryManager) (r : Int) (b c v : Int)
    (hb : float64OfInt rm.config.BaseDelay = b) (hc : float64OfInt rm.config.MaxDelay = c)
    (h0 : ¬(rm.config.BackoffMultiple = 0 ∧ r < 0))
    (hlt : |rm.config.BackoffMultiple ^ r| < 2 ^ 1024)
    (hv : (b : ℚ) * rm.config.BackoffMultiple ^ r = (v : ℚ)) :
    cappedDelay rm r
      = if -(2 ^ 63) ≤ min (float64OfInt v) c ∧ min (float64OfInt v) c < 2 ^ 63
        then min (float64OfInt v) c else -(2 ^ 63) := by
  rw [cappedDelay_of_finite rm r _ (mathPow_of_lt _ _ h0 hlt), hb, hc, hv, roundFloat_intCast,
    ← Int.cast_min, durationOfFloat_intCast]

/-- The default configuration at retry count 0 and clock reading 12345: the capped delay
is 60s, the jitter amplitude 6s, the result 60s + (12345 - 6s). -/
theorem calculate_default_example :
    CalculateNextRetryDelay (NewRetryManager none) 0 12345 = some 54000012345 := by
  have hd : cappedDelay (NewRetryManager none) 0 = 60000000000 := by
    rw [cappedDelay_eval _ _ 60000000000 1800000000000 60000000000 (by decide) (by decide)
      (by norm_num) (by norm_num) (by norm_num)]
    decide
  have hj : jitterAmplitude 60000000000 = 6000000000 := by
    rw [jitterAmplitude_eq (by decide) (by decide)]
    decide
  rw [calculate_jitter_small _ _ _ rfl (by rw [hd]; decide) (by rw [hd]; decide), hd, hj]
  decide

/-- With base delay above 0, cap at least 0 and below `2^53` ns, multiplier at least 0 and
a retry count of at least 0 (or a multiplier above 0), a returned duration is at least 0,
at most 1.1 times the cap with jitter and at most the cap without. -/
theorem delay_bounds_aux (rm : RetryManager) (r unixNano res : Int)
    (hb : 0 < rm.config.BaseDelay) (hm : 0 ≤ rm.config.MaxDelay)
    (hm53 : rm.config.MaxDelay < 2 ^ 53) (hk : 0 ≤ rm.config.BackoffMultiple)
    (hr : 0 ≤ r ∨ 0 < rm.config.BackoffMultiple)
    (h : CalculateNextRetryDelay rm r unixNano = some res) :
    0 ≤ res ∧ (rm.config.JitterEnabled = true → 10 * res ≤ 11 * rm.config.MaxDelay) ∧
      (rm.config.JitterEnabled = false → res ≤ rm.config.MaxDelay) := by
  obtain ⟨hd0, hdc, -, -⟩ := cappedDelay_of_nonneg rm r hb hm hm53 hk hr
  cases hj : rm.config.JitterEnabled with
  | false =>
    rw [calculate_of_noJitter rm r unixNano hj] at h
    have hres : cappedDelay rm r = res := Option.some.inj h
    refine ⟨by omega, fun hc => absurd hc (by simp), fun _ => by omega⟩
  | true =>
    obtain ⟨hj0, hj10, -, -⟩ := jitterAmplitude_bounds hd0 (lt_of_le_of_lt hdc hm53)
    rw [calculate_jitter_small rm r unixNano hj hd0 (by omega)] at h
    split_ifs at h with hz
    have hres := Option.some.inj h
    have hb2 := tmod_bounds_of_pos unixNano (b := jitterAmplitude (cappedDelay rm r) * 2)
      (by omega)
    refine ⟨by omega, fun _ => by omega, fun hc => absurd hc (by simp)⟩

/-- With jitter enabled, a capped delay of at least 10ns and below `2^53` ns lets the
method return: the jitter amplitude is not zero. -/
theorem calculate_isSome_of_ten_le (rm : RetryManager) (r unixNano : Int)
    (h10 : 10 ≤ cappedDelay rm r) (h53 : cappedDelay rm r < 2 ^ 53) :
    (CalculateNextRetryDelay rm r unixNano).isSome = true := by
  cases hj : rm.config.JitterEnabled with
  | false => rw [calculate_of_noJitter rm r unixNano hj]; rfl
  | true =>
    obtain ⟨-, -, -, hj1⟩ := jitterAmplitude_bounds (d := cappedDelay rm r) (by omega) h53
    have := hj1 h10
    rw [calculate_jitter_small rm r unixNano hj (by omega) h53, if_neg (by omega)]
    rfl

/-- The default configuration never lets the delay computation panic at a retry count
`r ≥ 0`: the capped delay lies between one minute and the cap of 30 minutes. -/
theorem calculate_isSome_default (r unixNano : Int) (hr : 0 ≤ r) :
    (CalculateNextRetryDelay (NewRetryManager none) r unixNano).isSome = true := by
  obtain ⟨n, rfl⟩ := Int.eq_ofNat_of_zero_le hr
  have hk : (0 : ℚ) ≤ (NewRetryManager none).config.BackoffMultiple := by
    norm_num [NewRetryManager, DefaultRetryConfig]
  obtain ⟨-, hdc, hfin, hinf⟩ := cappedDelay_of_nonneg (NewRetryManager none) (n : Int)
    (by decide) (by decide) (by decide) hk (Or.inl (Int.ofNat_nonneg n))
  apply calculate_isSome_of_ten_le
  · rcases lt_or_le |(NewRetryManager none).config.BackoffMultiple ^ ((n : Nat) : Int)|
      (2 ^ 1024) with hov | hov
    · rw [hfin hov]
      have hb : float64OfInt (NewRetryManager none).config.BaseDelay = 60000000000 := by decide
      have hv : ((60000000000 : Int) : ℚ)
          * (NewRetryManager none).config.BackoffMultiple ^ ((n : Nat) : Int)
          = ((60000000000 * 2 ^ n : Int) : ℚ) := by
        simp only [NewRetryManager, DefaultRetryConfig, zpow_natCast]
        push_cast
        ring
      rw [hb, hv, roundFloat_intCast]
      have h2n : (1 : Int) ≤ 2 ^ n := one_le_pow₀ (by norm_num)
      have hfl : (10 : Int) ≤ float64OfInt (60000000000 * 2 ^ n) :=
        le_float64OfInt (by norm_num) (by norm_num) (by omega)
      have hmin : ((10 : Int) : ℚ) ≤ min ((float64OfInt (60000000000 * 2 ^ n) : Int) : ℚ)
          (((NewRetryManager none).config.MaxDelay : Int) : ℚ) :=
        le_min (by exact_mod_cast hfl) (by
          have : (10 : Int) ≤ (NewRetryManager none).config.MaxDelay := by decide
          exact_mod_cast this)
      have := truncate_mono hmin
      rwa [truncate_intCast] at this
    · rw [hinf hov]
      decide
  · exact lt_of_le_of_lt hdc (by decide)

/-- With jitter enabled, a capped delay of at least 0 and below 10 nanoseconds makes the
jitter amplitude zero, and the remainder by `jitter * 2` panics. -/
theorem calculate_none_of_small (rm : RetryManager) (r unixNano : Int)
    (hj : rm.config.JitterEnabled = true)
    (h0 : 0 ≤ cappedDelay rm r) (h9 : cappedDelay rm r < 10) :
    CalculateNextRetryDelay rm r unixNano = none := by
  obtain ⟨-, -, hz, -⟩ := jitterAmplitude_bounds h0 (lt_trans h9 (by norm_num))
  rw [calculate_jitter_small rm r unixNano hj h0 (by omega), if_pos (hz h9)]

/-- The rounding of a fraction in lowest terms rounds its numerator. -/
theorem roundFloat_div (a : Int) (b : Nat) (hb : 0 < b) (h : Nat.Coprime a.natAbs b) :
    roundFloat ((a : ℚ) / (b : ℚ)) = (float64OfInt a : ℚ) / (b : ℚ) := by
  have hb0 : (0 : Int) < (b : Int) := by exact_mod_cast hb
  have hnum : ((a : ℚ) / ((b : Int) : ℚ)).num = a :=
    Rat.num_div_eq_of_coprime hb0 (by simpa using h)
  have hden : (((a : ℚ) / ((b : Int) : ℚ)).den : Int) = (b : Int) :=
    Rat.den_div_eq_of_coprime hb0 (by simpa using h)
  have hden2 : ((a : ℚ) / ((b : Int) : ℚ)).den = b := by exact_mod_cast hden
  have e : (a : ℚ) / (b : ℚ) = (a : ℚ) / ((b : Int) : ℚ) := by push_cast; rfl
  rw [e, roundFloat, hnum, hden2]

/-- The rounding of products and powers, at base delay 1s and the multiplier `1.4` (the
`float64` value next to it), jitter disabled: the method returns 1400000000 ns at retry
count 1, above the exact product 1399999999.99999991..., and 1959999999 ns at retry
count 2, where the exact product is 1959999999.99999975.... -/
theorem calculate_rounded_product_example :
    CalculateNextRetryDelay { config := scenario14Config } 1 0 = some 1400000000 ∧
      CalculateNextRetryDelay { config := scenario14Config } 2 0 = some 1959999999 := by
  have hb : float64OfInt ({ config := scenario14Config } : RetryManager).config.BaseDelay
      = 1000000000 := by decide
  have hc : float64OfInt ({ config := scenario14Config } : RetryManager).config.MaxDelay
      = 30000000000 := by decide
  have hm : ({ config := scenario14Config } : RetryManager).config.BackoffMultiple
      = 6305039478318694 / 2 ^ 52 := rfl
  constructor
  · have hp := mathPow_of_lt ({ config := scenario14Config } : RetryManager).config.BackoffMultiple
      1 (by rw [hm]; norm_num) (by rw [hm]; norm_num [abs_of_pos])
    have hx : ((1000000000 : Int) : ℚ)
        * ({ config := scenario14Config } : RetryManager).config.BackoffMultiple ^ (1 : Int)
        = ((6157265115545599609375 : Int) : ℚ) / ((4398046511104 : Nat) : ℚ) := by
      rw [hm]; norm_num
    have hr : roundFloat (((6157265115545599609375 : Int) : ℚ) / ((4398046511104 : Nat) : ℚ))
        = ((1400000000 : Int) : ℚ) := by
      rw [roundFloat_div _ _ (by norm_num) (by norm_num)]
      have : float64OfInt 6157265115545599609375 = 6157265115545600000000 := by decide
      rw [this]
      norm_num
    rw [calculate_of_noJitter _ _ _ rfl, cappedDelay_of_finite _ _ _ hp, hb, hc, hx, hr,
      ← Int.cast_min, durationOfFloat_intCast]
    decide
  · have hp := mathPow_of_lt ({ config := scenario14Config } : RetryManager).config.BackoffMultiple
      2 (by rw [hm]; norm_num) (by rw [hm]; norm_num [abs_of_pos])
    have hx : ((1000000000 : Int) : ℚ)
        * ({ config := scenario14Config } : RetryManager).config.BackoffMultiple ^ (2 : Int)
        = ((19410899815994760247512221614080078125 : Int) : ℚ)
          / ((9903520314283042199192993792 : Nat) : ℚ) := by
      rw [hm]; norm_num
    have hr : roundFloat (((19410899815994760247512221614080078125 : Int) : ℚ)
          / ((9903520314283042199192993792 : Nat) : ℚ))
        = ((8220835839999999 : Int) : ℚ) / ((4194304 : Nat) : ℚ) := by
      rw [roundFloat_div _ _ (by norm_num) (by norm_num)]
      have : float64OfInt 19410899815994760247512221614080078125
          = 19410899815994760349235026397497393152 := by decide
      rw [this]
      norm_num
    have ht : durationOfFloat (min (((8220835839999999 : Int) : ℚ) / ((4194304 : Nat) : ℚ))
        ((30000000000 : Int) : ℚ)) = 1959999999 := by
      have hmin : min (((8220835839999999 : Int) : ℚ) / ((4194304 : Nat) : ℚ))
          ((30000000000 : Int) : ℚ)
          = ((8220835839999999 : Int) : ℚ) / ((4194304 : Nat) : ℚ) := by
        apply min_eq_left
        norm_num
      have hfl : truncate (((8220835839999999 : Int) : ℚ) / ((4194304 : Nat) : ℚ))
          = 1959999999 := by
        rw [truncate, if_pos (by positivity), Rat.floor_intCast_div_natCast]
        decide
      rw [hmin, durationOfFloat_of_range (by rw [hfl]; decide) (by rw [hfl]; decide), hfl]
    rw [calculate_of_noJitter _ _ _ rfl, cappedDelay_of_finite _ _ _ hp, hb, hc, hx, hr, ht]

/-- The relation between `PrepareRetry` and the delay computation: the updated job when
the computation returns, a panic when it panics. -/
theorem prepareRetry_eq_map (rm : RetryManager) (job : EmailJob) (err : String)
    (unixNano now : Int) :
    PrepareRetry rm job err unixNano now
      = (CalculateNextRetryDelay rm job.RetryCount unixNano).map fun d =>
          { job with RetryCount := job.RetryCount + 1, LastError := err,
                     NextRetryAt := now + d } := by
  simp only [PrepareRetry, add_sub_cancel_right]
  cases CalculateNextRetryDelay rm job.RetryCount unixNano <;> rfl

/-- The default configuration with base delay 0 panics at retry count 0. -/
theorem calculate_zeroBase_none (unixNano : Int) :
    CalculateNextRetryDelay { config := zeroBaseConfig } 0 unixNano = none := by
  have hd : cappedDelay { config := zeroBaseConfig } 0 = 0 := by
    rw [cappedDelay_eval _ _ 0 1800000000000 0 (by decide) (by decide) (by norm_num)
      (by norm_num) (by norm_num)]
    decide
  exact calculate_none_of_small _ _ _ rfl (by rw [hd]) (by rw [hd]; decide)

/-- The rounding of a value between 0 and 1 is below 10. -/
theorem roundFloat_lt_ten {x : ℚ} (h0 : 0 ≤ x) (h1 : x < 1) :
    roundFloat x < ((10 : Int) : ℚ) := by
  have h := roundFloat_le h0
  norm_num at h ⊢
  linarith

/-- The default configuration panics at retry count -40: the product is below one
nanosecond. -/
theorem calculate_default_none (unixNano : Int) :
    CalculateNextRetryDelay (NewRetryManager none) (-40) unixNano = none := by
  have hk : (0 : ℚ) ≤ (NewRetryManager none).config.BackoffMultiple := by
    norm_num [NewRetryManager, DefaultRetryConfig]
  have hk2 : (0 : ℚ) < (NewRetryManager none).config.BackoffMultiple := by
    norm_num [NewRetryManager, DefaultRetryConfig]
  obtain ⟨h0, -, hfin, -⟩ := cappedDelay_of_nonneg (NewRetryManager none) (-40)
    (by decide) (by decide) (by decide) hk (Or.inr hk2)
  have hb : float64OfInt (NewRetryManager none).config.BaseDelay = 60000000000 := by decide
  have hov : |(NewRetryManager none).config.BackoffMultiple ^ (-40 : Int)| < 2 ^ 1024 := by
    norm_num [NewRetryManager, DefaultRetryConfig, abs_of_pos]
  have hx : (0 : ℚ) ≤ ((60000000000 : Int) : ℚ)
      * (NewRetryManager none).config.BackoffMultiple ^ (-40 : Int) := by
    norm_num [NewRetryManager, DefaultRetryConfig]
  have hx1 : ((60000000000 : Int) : ℚ)
      * (NewRetryManager none).config.BackoffMultiple ^ (-40 : Int) < 1 := by
    norm_num [NewRetryManager, DefaultRetryConfig]
  have hlt : roundFloat (((60000000000 : Int) : ℚ)
      * (NewRetryManager none).config.BackoffMultiple ^ (-40 : Int)) < ((10 : Int) : ℚ) :=
    roundFloat_lt_ten hx hx1
  apply calculate_none_of_small _ _ _ rfl h0
  rw [hfin hov, hb]
  exact truncate_lt
    (le_min (roundFloat_nonneg hx)
      (by norm_num [NewRetryManager, DefaultRetryConfig, Minute, Second, Nanosecond]))
    (lt_of_le_of_lt (min_le_left _ _) hlt)

/-- C3, what the code does where the claim promises the updated job.  `PrepareRetry`
returns the job with the retry count increased by one, the error text and
`nextRetryAt = now + d` when the delay computation returns `d` (so under the default
configuration for a fresh job), and panics when the delay computation panics on its
division by `jitter * 2 = 0`: for every job with retry count 0 under the default
configuration with base delay 0, and under the default configuration itself for a job
with retry count -40. -/
theorem prepareRetry_panics :
    (∀ (rm : RetryManager) (job : EmailJob) (err : String) (unixNano now : Int),
        PrepareRetry rm job err unixNano now
          = (CalculateNextRetryDelay rm job.RetryCount unixNano).map fun d =>
              { job with RetryCount := job.RetryCount + 1, LastError := err,
                         NextRetryAt := now + d }) ∧
      (∀ (err : String) (unixNano now : Int),
        PrepareRetry { config := zeroBaseConfig } scenarioJob err unixNano now = none) ∧
      (∀ (err : String) (unixNano now : Int),
        PrepareRetry (NewRetryManager none) { scenarioJob with RetryCount := -40 } err
          unixNano now = none) ∧
      PrepareRetry (NewRetryManager none) scenarioJob "refused" 12345 5
        = some { scenarioJob with RetryCount := 1, LastError := "refused",
                                  NextRetryAt := 5 + 54000012345 } := by
  refine ⟨prepareRetry_eq_map, ?_, ?_, ?_⟩
  · intro err u now
    have h : scenarioJob.RetryCount = 0 := rfl
    rw [prepareRetry_eq_map, h, calculate_zeroBase_none]
    rfl
  · intro err u now
    have h : ({ scenarioJob with RetryCount := -40 } : EmailJob).RetryCount = -40 := rfl
    rw [prepareRetry_eq_map, h, calculate_default_none]
    rfl
  · rw [prepareRetry_eq_map]
    have h : scenarioJob.RetryCount = 0 := rfl
    rw [h, calculate_default_example]
    rfl

end jobqueue

namespace mailer

open jobqueue

/-- In the scenario configuration the delay for retry count `r` is `2^r` seconds, as long
as that is within the cap and below `2^53` ns. -/
theorem scenario_delay (maxDelay : Int) (r : Nat) (unixNano : Int)
    (hcap : 2 ^ r * Second ≤ maxDelay) (hsmall : 2 ^ r * Second < 2 ^ 53) :
    CalculateNextRetryDelay { config := scenarioConfig maxDelay } r unixNano
      = some (2 ^ r * Second) := by
  have hpos : (0 : Int) ≤ 2 ^ r * Second :=
    mul_nonneg (pow_nonneg (by norm_num) r) (by decide)
  have hb : float64OfInt ({ config := scenarioConfig maxDelay } : RetryManager).config.BaseDelay
      = 1000000000 := by
    show float64OfInt (1 * Second) = 1000000000
    decide
  have hm : ({ config := scenarioConfig maxDelay } : RetryManager).config.BackoffMultiple
      = 2 := rfl
  have hv : ((1000000000 : Int) : ℚ)
      * ({ config := scenarioConfig maxDelay } : RetryManager).config.BackoffMultiple ^ (r : Int)
      = ((2 ^ r * Second : Int) : ℚ) := by
    simp only [scenarioConfig, zpow_natCast, Second, Nanosecond]
    push_cast
    ring
  have hlt : |({ config := scenarioConfig maxDelay } : RetryManager).config.BackoffMultiple
      ^ (r : Int)| < 2 ^ 1024 := by
    rw [hm, zpow_natCast, abs_of_pos (by positivity)]
    have h1 : ((2 ^ r * Second : Int) : ℚ) < ((2 ^ 53 : Int) : ℚ) := by exact_mod_cast hsmall
    have h2 : (1 : ℚ) ≤ ((Second : Int) : ℚ) := by
      have : (1 : Int) ≤ Second := by decide
      exact_mod_cast this
    have h3 : (0 : ℚ) < (2 : ℚ) ^ r := by positivity
    push_cast at h1
    have h4 : (2 : ℚ) ^ 53 ≤ 2 ^ 1024 := by norm_num
    nlinarith
  have hfl : float64OfInt (2 ^ r * Second) = 2 ^ r * Second :=
    float64OfInt_of_lt (by omega) hsmall
  have hle : 2 ^ r * Second
      ≤ float64OfInt ({ config := scenarioConfig maxDelay } : RetryManager).config.MaxDelay :=
    le_float64OfInt hpos hsmall hcap
  rw [calculate_of_noJitter _ _ _ rfl,
    cappedDelay_eval _ _ _ _ _ hb rfl (by rw [hm]; norm_num) hlt hv, hfl, min_eq_left hle,
    if_pos ⟨by omega, by omega⟩]

/-- One call of `ScheduleRetry` on a job that may still retry, given the delay. -/
theorem scheduleRetry_of_delay (d : Dispatcher) (job : EmailJob) (err : String)
    (unixNano now untilNow delay : Int) (hlt : job.RetryCount < job.MaxRetries)
    (hd : CalculateNextRetryDelay d.retryManager job.RetryCount unixNano = some delay) :
    ScheduleRetry d job err unixNano now untilNow
      = some ({ job with RetryCount := job.RetryCount + 1, LastError := err,
                         NextRetryAt := now + delay },
          [Effect.logInfo "Retry scheduled",
           Effect.afterFunc (Until (now + delay) untilNow)
             { job with RetryCount := job.RetryCount + 1, LastError := err,
                        NextRetryAt := now + delay }]) := by
  simp [ScheduleRetry, ShouldRetry, PrepareRetry, hlt, hd]

/-- One call of `ScheduleRetry` on a job whose retries are used up. -/
theorem scheduleRetry_of_exhausted (d : Dispatcher) (job : EmailJob) (err : String)
    (unixNano now untilNow : Int) (hge : job.MaxRetries ≤ job.RetryCount) :
    ScheduleRetry d job err unixNano now untilNow
      = some (job, [Effect.logError "Task failed permanently"]) := by
  simp [ScheduleRetry, ShouldRetry, not_lt.mpr hge]

/-- C4: in the scenario configuration (`maxRetries=3`, `baseDelay=1s`, multiplier 2, jitter
disabled, cap at least 4s) a fresh job with `maxRetries=3` that fails four times in a row
gets `nextRetryAt` 1s, 2s and 4s after the clock reading of the 1st, 2nd and 3rd failure,
each of these with exactly one re-push scheduled (of the updated job), and the 4th failure
only logs a permanent failure: no re-push, the job is unchanged. -/
theorem scenario_four_failures (maxDelay : Int) (job : EmailJob) (maxWorkers : Int)
    (e1 e2 e3 e4 : String) (c1 c2 c3 c4 : Readings)
    (hcap : 4 * Second ≤ maxDelay) (h0 : job.RetryCount = 0) (h3 : job.MaxRetries = 3) :
    consecutiveFailures
        { maxWorkers := maxWorkers, retryManager := { config := scenarioConfig maxDelay } }
        job [(e1, c1), (e2, c2), (e3, c3), (e4, c4)]
      = some
        [({ job with RetryCount := 1, LastError := e1, NextRetryAt := c1.now + 1 * Second },
          [Effect.logInfo "Retry scheduled",
           Effect.afterFunc (Until (c1.now + 1 * Second) c1.untilNow)
             { job with RetryCount := 1, LastError := e1,
                        NextRetryAt := c1.now + 1 * Second }]),
         ({ job with RetryCount := 2, LastError := e2, NextRetryAt := c2.now + 2 * Second },
          [Effect.logInfo "Retry scheduled",
           Effect.afterFunc (Until (c2.now + 2 * Second) c2.untilNow)
             { job with RetryCount := 2, LastError := e2,
                        NextRetryAt := c2.now + 2 * Second }]),
         ({ job with RetryCount := 3, LastError := e3, NextRetryAt := c3.now + 4 * Second },
          [Effect.logInfo "Retry scheduled",
           Effect.afterFunc (Until (c3.now + 4 * Second) c3.untilNow)
             { job with RetryCount := 3, LastError := e3,
                        NextRetryAt := c3.now + 4 * Second }]),
         ({ job with RetryCount := 3, LastError := e3, NextRetryAt := c3.now + 4 * Second },
          [Effect.logError "Task failed permanently"])] := by
  have hs : (0 : Int) < Second := by decide
  have d0 := scenario_delay maxDelay 0 c1.unixNano (by omega) (by decide)
  have d1 := scenario_delay maxDelay 1 c2.unixNano (by omega) (by decide)
  have d2 := scenario_delay maxDelay 2 c3.unixNano (by omega) (by decide)
  obtain ⟨To, Subject, Body, rc, mr, nra, ca, le, tid, td, att⟩ := job
  simp only at h0 h3
  subst h0 h3
  simp only [Nat.cast_zero, Nat.cast_one, Nat.cast_ofNat, pow_zero, pow_one] at d0 d1 d2
  rw [consecutiveFailures, scheduleRetry_of_delay _ _ _ _ _ _ _ (by norm_num) d0]
  simp only [repushes]
  rw [consecutiveFailures, scheduleRetry_of_delay _ _ _ _ _ _ _ (by norm_num) d1]
  simp only [repushes]
  rw [consecutiveFailures, scheduleRetry_of_delay _ _ _ _ _ _ _ (by norm_num) d2]
  simp only [repushes]
  rw [consecutiveFailures, scheduleRetry_of_exhausted _ _ _ _ _ _ (by norm_num)]
  norm_num [repushes]

/-- C4, with cap 5s and failures handled at 0s, 10s, 20s and 30s: the retry counts, the
values of `nextRetryAt` and the number of re-pushes scheduled. -/
theorem scenario_four_failures_witness :
    (4 * Second ≤ 5 * Second ∧ scenarioJob.RetryCount = 0 ∧ scenarioJob.MaxRetries = 3) ∧
      (consecutiveFailures
          { maxWorkers := 2, retryManager := { config := scenarioConfig (5 * Second) } }
          scenarioJob
          [("e1", ⟨0, 0, 0⟩), ("e2", ⟨0, 10 * Second, 10 * Second⟩),
           ("e3", ⟨0, 20 * Second, 20 * Second⟩), ("e4", ⟨0, 30 * Second, 30 * Second⟩)]).map
        (List.map fun p => (p.1.RetryCount, p.1.NextRetryAt, (repushes p.2).length))
      = some [(1, 1 * Second, 1), (2, 12 * Second, 1), (3, 24 * Second, 1),
              (3, 24 * Second, 0)] := by
  refine ⟨⟨by decide, rfl, rfl⟩, ?_⟩
  rw [scenario_four_failures (5 * Second) scenarioJob 2 "e1" "e2" "e3" "e4" _ _ _ _
    (by decide) rfl rfl]
  decide

end mailer

namespace jobqueue

/-- C7, as stated, fails: with base delay 1s, cap 30s (both non-negative), multiplier -2
and jitter disabled, the delay for retry count 1 is -2s. -/
theorem delay_negative_counterexample :
    0 ≤ negativeMultiplierConfig.BaseDelay ∧ 0 ≤ negativeMultiplierConfig.MaxDelay ∧
      CalculateNextRetryDelay { config := negativeMultiplierConfig } 1 0
        = some (-2000000000) ∧ (-2000000000 : Int) < 0 := by
  refine ⟨by decide, by decide, ?_, by decide⟩
  rw [calculate_of_noJitter _ _ _ rfl,
    cappedDelay_eval _ _ 1000000000 30000000000 (-2000000000) (by decide) (by decide)
      (by norm_num [negativeMultiplierConfig])
      (by norm_num [negativeMultiplierConfig])
      (by norm_num [negativeMultiplierConfig])]
  decide

/-- C7, amended: when the base delay is above 0, the cap is at least 0 and below `2^53` ns
(104 days), the multiplier is at least 0 and the retry count is at least 0, every duration
`CalculateNextRetryDelay` returns is non-negative, with jitter and without, at every clock
reading.  (With base delay 0 an overflowing power gives the product `0 * Inf`, a NaN,
which `time.Duration` turns into the least `int64`; a cap of `2^53` ns or more is rounded
by `float64(cap)`, up to a value that `time.Duration` cannot hold for the greatest caps;
and a retry count below 0 makes the power of a multiplier 0 infinite.) -/
theorem delay_nonneg (rm : RetryManager) (r unixNano res : Int)
    (hb : 0 < rm.config.BaseDelay) (hm : 0 ≤ rm.config.MaxDelay)
    (hm53 : rm.config.MaxDelay < 2 ^ 53) (hk : 0 ≤ rm.config.BackoffMultiple)
    (hr : 0 ≤ r)
    (h : CalculateNextRetryDelay rm r unixNano = some res) : 0 ≤ res :=
  (delay_bounds_aux rm r unixNano res hb hm hm53 hk (Or.inl hr) h).1

/-- C7 amended, at the default configuration, retry count 0 and clock reading 12345. -/
theorem delay_nonneg_witness :
    (0 < (NewRetryManager none).config.BaseDelay ∧ 0 ≤ (NewRetryManager none).config.MaxDelay
        ∧ (NewRetryManager none).config.MaxDelay < 2 ^ 53
        ∧ 0 ≤ (NewRetryManager none).config.BackoffMultiple ∧ (0 : Int) ≤ 0
        ∧ CalculateNextRetryDelay (NewRetryManager none) 0 12345 = some 54000012345)
      ∧ (0 : Int) ≤ 54000012345 :=
  have hk : 0 ≤ (NewRetryManager none).config.BackoffMultiple := by
    norm_num [NewRetryManager, DefaultRetryConfig]
  ⟨⟨by decide, by decide, by decide, hk, by decide, calculate_default_example⟩,
    delay_nonneg (NewRetryManager none) 0 12345 54000012345 (by decide) (by decide)
      (by decide) hk (by decide) calculate_default_example⟩

/-- C8, as stated, fails: with base delay `2^60` ns, cap `2^53 + 3` ns (both non-negative),
multiplier 1 and jitter disabled, the delay for retry count 0 is `2^53 + 4` ns, one
nanosecond above the cap, because `float64(maxDelay)` rounds up. -/
theorem delay_above_cap_counterexample :
    0 ≤ roundedCapConfig.BaseDelay ∧ 0 ≤ roundedCapConfig.MaxDelay ∧
      roundedCapConfig.JitterEnabled = false ∧
      CalculateNextRetryDelay { config := roundedCapConfig } 0 0 = some 9007199254740996 ∧
      roundedCapConfig.MaxDelay < 9007199254740996 := by
  refine ⟨by decide, by decide, rfl, ?_, by decide⟩
  rw [calculate_of_noJitter _ _ _ rfl,
    cappedDelay_eval _ _ 1152921504606846976 9007199254740996 1152921504606846976
      (by decide) (by decide) (by norm_num) (by norm_num)
      (by norm_num [roundedCapConfig])]
  decide

/-- C8, amended: when the base delay is above 0, the cap is at least 0 and below `2^53` ns
(104 days), the multiplier is at least 0 and the retry count is at least 0, a duration
returned with jitter enabled is at most `maxDelay * 1.1`, and a duration returned with
jitter disabled is at most `maxDelay`, at every clock reading. -/
theorem delay_le_cap (rm : RetryManager) (r unixNano res : Int)
    (hb : 0 < rm.config.BaseDelay) (hm : 0 ≤ rm.config.MaxDelay)
    (hm53 : rm.config.MaxDelay < 2 ^ 53) (hk : 0 ≤ rm.config.BackoffMultiple)
    (hr : 0 ≤ r)
    (h : CalculateNextRetryDelay rm r unixNano = some res) :
    (rm.config.JitterEnabled = true → (res : ℚ) ≤ (rm.config.MaxDelay : ℚ) * 1.1) ∧
      (rm.config.JitterEnabled = false → res ≤ rm.config.MaxDelay) := by
  obtain ⟨-, h1, h2⟩ := delay_bounds_aux rm r unixNano res hb hm hm53 hk (Or.inl hr) h
  refine ⟨fun hj => ?_, h2⟩
  have hq : ((10 * res : Int) : ℚ) ≤ ((11 * rm.config.MaxDelay : Int) : ℚ) := by
    exact_mod_cast h1 hj
  push_cast at hq
  norm_num
  linarith

/-- C8 amended, at the default configuration (cap 30 minutes, jitter enabled), retry
count 0 and clock reading 12345. -/
theorem delay_le_cap_witness :
    (0 < (NewRetryManager none).config.BaseDelay ∧ 0 ≤ (NewRetryManager none).config.MaxDelay
        ∧ (NewRetryManager none).config.MaxDelay < 2 ^ 53
        ∧ 0 ≤ (NewRetryManager none).config.BackoffMultiple ∧ (0 : Int) ≤ 0
        ∧ CalculateNextRetryDelay (NewRetryManager none) 0 12345 = some 54000012345)
      ∧ ((54000012345 : Int) : ℚ) ≤ ((NewRetryManager none).config.MaxDelay : ℚ) * 1.1 :=
  have hk : 0 ≤ (NewRetryManager none).config.BackoffMultiple := by
    norm_num [NewRetryManager, DefaultRetryConfig]
  ⟨⟨by decide, by decide, by decide, hk, by decide, calculate_default_example⟩,
    (delay_le_cap (NewRetryManager none) 0 12345 54000012345 (by decide) (by decide)
      (by decide) hk (by decide) calculate_default_example).1 rfl⟩

end jobqueue

namespace mailer

open jobqueue

/-- The trace of consecutive failures of a job with retry count `c` and `m` allowed
retries, `c ≤ m`, under a dispatcher whose delay computation returns: failure number
`i + 1` leaves the retry count at `min (c + i + 1) m` and schedules a re-push (of the job
with retry count `c + i + 1`) exactly when `c + i < m`; at most `m - c + 1` failures are
handled. -/
theorem failures_observed (d : Dispatcher)
    (hret : ∀ r u : Int, 0 ≤ r → (CalculateNextRetryDelay d.retryManager r u).isSome = true)
    (fs : List (String × Readings)) :
    ∀ (job : EmailJob) (c m : Nat), job.RetryCount = c → job.MaxRetries = m → c ≤ m →
      (consecutiveFailures d job fs).map (List.map observed)
        = some ((List.range (min fs.length (m - c + 1))).map fun i =>
            (((min (c + i + 1) m : Nat) : Int),
              if c + i < m then [((c + i + 1 : Nat) : Int)] else [])) := by
  induction fs with
  | nil => intro job c m _ _ _; simp [consecutiveFailures]
  | cons f rest ih =>
    intro job c m hc hm hcm
    obtain ⟨err, cl⟩ := f
    rcases Nat.lt_or_ge c m with hlt | hge
    · obtain ⟨delay, hdelay⟩ := Option.isSome_iff_exists.mp
        (hret job.RetryCount cl.unixNano (by rw [hc]; exact Int.ofNat_nonneg c))
      have hlt2 : job.RetryCount < job.MaxRetries := by rw [hc, hm]; exact_mod_cast hlt
      rw [consecutiveFailures,
        scheduleRetry_of_delay d job err cl.unixNano cl.now cl.untilNow delay hlt2 hdelay]
      simp only [repushes]
      generalize hj1 :
        ({ job with RetryCount := job.RetryCount + 1, LastError := err,
                    NextRetryAt := cl.now + delay } : EmailJob) = job1
      have hc1 : job1.RetryCount = ((c + 1 : Nat) : Int) := by
        rw [← hj1]; simp only [hc]; push_cast; rfl
      have hm1 : job1.MaxRetries = (m : Int) := by rw [← hj1]; exact hm
      have ih2 := ih job1 (c + 1) m hc1 hm1 hlt
      cases hrec : consecutiveFailures d job1 rest with
      | none => rw [hrec] at ih2; simp at ih2
      | some trace =>
        rw [hrec] at ih2
        simp only [Option.map_some', Option.some.injEq] at ih2
        simp only [Option.map_some', Option.some.injEq, List.map_cons, ih2, List.length_cons]
        have hmin : min (rest.length + 1) (m - c + 1) = min rest.length (m - (c + 1) + 1) + 1 := by
          omega
        rw [hmin, List.range_succ_eq_map, List.map_cons, List.map_map]
        congr 1
        · simp only [observed, repushes, List.map_cons, List.map_nil, hc1, Nat.add_zero,
            if_pos hlt, Prod.mk.injEq]
          refine ⟨?_, trivial⟩
          rw [min_eq_left (by omega)]
        · apply List.map_congr_left
          intro i _
          simp only [Function.comp, Nat.succ_eq_add_one]
          have e1 : c + 1 + i + 1 = c + (i + 1) + 1 := by omega
          have e2 : c + 1 + i < m ↔ c + (i + 1) < m := by omega
          simp only [e1, e2]
    · have hcm2 : c = m := by omega
      subst hcm2
      have hge2 : job.MaxRetries ≤ job.RetryCount := by rw [hc, hm]
      rw [consecutiveFailures,
        scheduleRetry_of_exhausted d job err cl.unixNano cl.now cl.untilNow hge2]
      simp only [repushes, Option.map_some', List.map_cons, List.map_nil, List.length_cons]
      have hmin : min (rest.length + 1) (c - c + 1) = 1 := by omega
      rw [hmin]
      simp [observed, repushes, hc, List.range_succ_eq_map]

/-- C5: for a job with retry count 0 and `m` allowed retries, under a dispatcher whose
delay computation returns (as the default configuration of `NewDispatcher` does), the
consecutive failures handled by `ScheduleRetry` give: after failure number `k ≤ m` the
retry count is `k` and a re-push of the job (with retry count `k`) is scheduled; failure
number `m + 1` leaves the retry count at `m` and schedules no re-push; no further failure
is handled. -/
theorem retryCount_after_failures (d : Dispatcher) (job : EmailJob) (m : Nat)
    (fs : List (String × Readings))
    (hret : ∀ r u : Int, 0 ≤ r → (CalculateNextRetryDelay d.retryManager r u).isSome = true)
    (h0 : job.RetryCount = 0) (hm : job.MaxRetries = m) :
    (consecutiveFailures d job fs).map (List.map observed)
      = some ((List.range (min fs.length (m + 1))).map fun i =>
          (((min (i + 1) m : Nat) : Int), if i < m then [((i + 1 : Nat) : Int)] else [])) := by
  have h := failures_observed d hret fs job 0 m (by simpa using h0) hm (Nat.zero_le m)
  simpa using h

/-- C5, at the dispatcher built by `NewDispatcher`, a fresh job with 3 allowed retries and
five failures: retry counts 1, 2, 3 with a re-push each, then the drop at the 4th failure;
the 5th is never handled. -/
theorem retryCount_after_failures_witness :
    ((∀ r u : Int, 0 ≤ r →
          (CalculateNextRetryDelay (NewDispatcher 2).retryManager r u).isSome = true)
        ∧ scenarioJob.RetryCount = 0 ∧ scenarioJob.MaxRetries = (3 : Nat))
      ∧ (consecutiveFailures (NewDispatcher 2) scenarioJob
            [("e1", ⟨11, 0, 0⟩), ("e2", ⟨12, 100 * Second, 100 * Second⟩),
             ("e3", ⟨13, 300 * Second, 300 * Second⟩),
             ("e4", ⟨14, 600 * Second, 600 * Second⟩),
             ("e5", ⟨15, 900 * Second, 900 * Second⟩)]).map (List.map observed)
          = some [(1, [1]), (2, [2]), (3, [3]), (3, [])] :=
  ⟨⟨calculate_isSome_default, rfl, rfl⟩,
    retryCount_after_failures (NewDispatcher 2) scenarioJob 3 _ calculate_isSome_default
      rfl rfl⟩

/-- C6: for a job whose retry count has reached its maximum (so for every fresh job with
`maxRetries = 0`), `ScheduleRetry` only logs the permanent failure: it schedules no
re-push, pushes nothing, and returns the job unchanged in every field; whatever failures
are offered after the first, only that one attempt is ever handled. -/
theorem scheduleRetry_exhausted (d : Dispatcher) (job : EmailJob) (err : String)
    (unixNano now untilNow : Int) (hge : job.MaxRetries ≤ job.RetryCount) :
    ScheduleRetry d job err unixNano now untilNow
        = some (job, [Effect.logError "Task failed permanently"]) ∧
      repushes [Effect.logError "Task failed permanently"] = [] ∧
      pushes [Effect.logError "Task failed permanently"] = [] ∧
      ∀ rest : List (String × Readings),
        consecutiveFailures d job ((err, ⟨unixNano, now, untilNow⟩) :: rest)
          = some [(job, [Effect.logError "Task failed permanently"])] := by
  have h := scheduleRetry_of_exhausted d job err unixNano now untilNow hge
  refine ⟨h, rfl, rfl, fun rest => ?_⟩
  rw [consecutiveFailures, h]
  rfl

/-- C6, at a fresh job with `maxRetries = 0` under the default dispatcher. -/
theorem scheduleRetry_exhausted_witness :
    ({ scenarioJob with MaxRetries := 0 } : EmailJob).MaxRetries
        ≤ ({ scenarioJob with MaxRetries := 0 } : EmailJob).RetryCount
      ∧ ScheduleRetry (NewDispatcher 2) { scenarioJob with MaxRetries := 0 } "refused" 7 8 9
          = some ({ scenarioJob with MaxRetries := 0 },
              [Effect.logError "Task failed permanently"]) :=
  ⟨by decide,
    (scheduleRetry_exhausted (NewDispatcher 2) { scenarioJob with MaxRetries := 0 } "refused"
      7 8 9 (by decide)).1⟩

/-- The worker's readiness check at readings `t1 ≤ t2` implies that `nextRetryAt` is not
later than the second reading. -/
theorem nextRetryAt_le_of_ready (rm : RetryManager) (job : EmailJob) (t1 t2 : Int)
    (hready : IsReadyForRetry rm job t1 t2 = true) (h12 : t1 ≤ t2) :
    job.NextRetryAt ≤ t2 := by
  simp only [IsReadyForRetry, Bool.or_eq_true, decide_eq_true_eq] at hready
  omega

/-- C10, as stated, fails: under a retry manager with multiplier -2 (base delay 1s, cap
30s, jitter disabled), a job with retry count 1 and `nextRetryAt = 0` that is ready at
clock reading 0 and fails at reading 0 gets `nextRetryAt = -2s` from `PrepareRetry`,
earlier than before. -/
theorem nextRetryAt_decreases_counterexample :
    IsReadyForRetry (NewRetryManager (some negativeMultiplierConfig))
        { scenarioJob with RetryCount := 1 } 0 0 = true ∧
      PrepareRetry (NewRetryManager (some negativeMultiplierConfig))
          { scenarioJob with RetryCount := 1 } "refused" 0 0
        = some { scenarioJob with RetryCount := 2, LastError := "refused",
                                  NextRetryAt := -2000000000 } ∧
      (-2000000000 : Int) < ({ scenarioJob with RetryCount := 1 } : EmailJob).NextRetryAt := by
  refine ⟨by decide, ?_, by decide⟩
  have hc : CalculateNextRetryDelay (NewRetryManager (some negativeMultiplierConfig))
      ({ scenarioJob with RetryCount := 1 } : EmailJob).RetryCount 0
      = some (-2000000000) := by
    rw [calculate_of_noJitter _ _ _ rfl,
      cappedDelay_eval _ _ 1000000000 30000000000 (-2000000000) (by decide) (by decide)
        (by norm_num [NewRetryManager, negativeMultiplierConfig])
        (by norm_num [NewRetryManager, negativeMultiplierConfig])
        (by norm_num [NewRetryManager, negativeMultiplierConfig])]
    decide
  rw [prepareRetry_eq_map, hc]
  rfl

/-- C10, amended: under a dispatcher whose base delay is above 0, whose cap is at least 0
and below `2^53` ns and whose multiplier is at least 0 (the default configuration is
one), for a job with a retry count of at least 0 that was ready when attempted
(`nextRetryAt ≤ t`, the clock reading at which it was dequeued) and whose failure is
handled at a later reading `now`, the `nextRetryAt` set by `PrepareRetry`, and so the one
of the job `ScheduleRetry` leaves and re-pushes, is at least the job's previous
`nextRetryAt`. -/
theorem nextRetryAt_mono (d : Dispatcher) (job : EmailJob) (err : String)
    (t unixNano now untilNow : Int)
    (hb : 0 < d.retryManager.config.BaseDelay) (hm : 0 ≤ d.retryManager.config.MaxDelay)
    (hm53 : d.retryManager.config.MaxDelay < 2 ^ 53)
    (hk : 0 ≤ d.retryManager.config.BackoffMultiple) (hr : 0 ≤ job.RetryCount)
    (hready : job.NextRetryAt ≤ t) (htn : t ≤ now) :
    (∀ job1 : EmailJob, PrepareRetry d.retryManager job err unixNano now = some job1 →
        job.NextRetryAt ≤ job1.NextRetryAt) ∧
      ∀ (job1 : EmailJob) (effects : List Effect),
        ScheduleRetry d job err unixNano now untilNow = some (job1, effects) →
          job.NextRetryAt ≤ job1.NextRetryAt ∧
            ∀ j ∈ repushes effects, job.NextRetryAt ≤ j.NextRetryAt := by
  have hnext : job.NextRetryAt ≤ now := le_trans hready htn
  have hprep : ∀ job1 : EmailJob, PrepareRetry d.retryManager job err unixNano now = some job1 →
      job.NextRetryAt ≤ job1.NextRetryAt := by
    intro job1 h1
    simp only [PrepareRetry, add_sub_cancel_right] at h1
    cases hc : CalculateNextRetryDelay d.retryManager job.RetryCount unixNano with
    | none => rw [hc] at h1; simp at h1
    | some delay =>
      rw [hc] at h1
      have hd := (delay_bounds_aux d.retryManager job.RetryCount unixNano delay hb hm hm53
        hk (Or.inl hr) hc).1
      simp only [Option.some.injEq] at h1
      rw [← h1]
      show job.NextRetryAt ≤ now + delay
      omega
  refine ⟨hprep, ?_⟩
  intro job1 effects h
  unfold ScheduleRetry at h
  split_ifs at h with hs
  · simp only [Option.some.injEq, Prod.mk.injEq] at h
    obtain ⟨rfl, rfl⟩ := h
    exact ⟨le_refl _, by simp [repushes]⟩
  · cases hp : PrepareRetry d.retryManager job err unixNano now with
    | none => rw [hp] at h; simp at h
    | some retryJob =>
      rw [hp] at h
      simp only [Option.some.injEq, Prod.mk.injEq] at h
      obtain ⟨rfl, rfl⟩ := h
      have := hprep retryJob hp
      refine ⟨this, ?_⟩
      intro j hj
      simp only [repushes, List.mem_singleton] at hj
      rw [hj]
      exact this

/-- C10 amended, at the default dispatcher and a fresh job with `nextRetryAt = 0`,
dequeued at reading 3 and failing at reading 5: the job `ScheduleRetry` leaves has
`nextRetryAt = 5 + 54000012345`. -/
theorem nextRetryAt_mono_witness :
    (0 < (NewDispatcher 2).retryManager.config.BaseDelay
        ∧ 0 ≤ (NewDispatcher 2).retryManager.config.MaxDelay
        ∧ (NewDispatcher 2).retryManager.config.MaxDelay < 2 ^ 53
        ∧ 0 ≤ (NewDispatcher 2).retryManager.config.BackoffMultiple
        ∧ 0 ≤ scenarioJob.RetryCount
        ∧ scenarioJob.NextRetryAt ≤ 3 ∧ (3 : Int) ≤ 5)
      ∧ ScheduleRetry (NewDispatcher 2) scenarioJob "refused" 12345 5 6
          = some ({ scenarioJob with RetryCount := 1, LastError := "refused",
                                     NextRetryAt := 5 + 54000012345 },
              [Effect.logInfo "Retry scheduled",
               Effect.afterFunc (Until (5 + 54000012345) 6)
                 { scenarioJob with RetryCount := 1, LastError := "refused",
                                    NextRetryAt := 5 + 54000012345 }])
      ∧ scenarioJob.NextRetryAt
          ≤ ({ scenarioJob with RetryCount := 1, LastError := "refused",
                                NextRetryAt := 5 + 54000012345 } : EmailJob).NextRetryAt :=
  have hk : 0 ≤ (NewDispatcher 2).retryManager.config.BackoffMultiple := by
    norm_num [NewDispatcher, NewRetryManager, DefaultRetryConfig]
  have hs := scheduleRetry_of_delay (NewDispatcher 2) scenarioJob "refused" 12345 5 6
    54000012345 (by decide) calculate_default_example
  ⟨⟨by decide, by decide, by decide, hk, by decide, by decide, by decide⟩, hs,
    ((nextRetryAt_mono (NewDispatcher 2) scenarioJob "refused" 3 12345 5 6 (by decide)
      (by decide) (by decide) hk (by decide) (by decide) (by decide)).2 _ _ hs).1⟩

end mailer

namespace queue

open jobqueue

/-- A done context has an error. -/
theorem err_of_isDone (ctx : Context) (h : ctx.isDone = true) : ∃ e, ctx.Err = some e := by
  cases ctx
  · simp [Context.isDone] at h
  · exact ⟨_, rfl⟩
  · exact ⟨_, rfl⟩

/-- On an open queue that holds as many jobs as its capacity, `Push` returns at once and
changes nothing; the error is that of the context when the context is done, and
`ErrQueueFull` otherwise. -/
theorem push_of_full (m : MemoryQueue) (ctx : Context) (job : EmailJob) (pick : Bool)
    (hfull : m.jobs.length = m.capacity) (hopen : m.closed = false) :
    Push m ctx job pick
      = Outcome.returned
          ((if ctx.isDone then ctx.Err else some Error.ErrQueueFull), m) := by
  simp only [Push, sendReady, hopen, hfull, lt_self_iff_false, decide_False, Bool.or_self,
    Bool.false_and, Bool.false_eq_true, if_false]
  split_ifs <;> rfl

/-- C11, as stated, fails: on a full open queue of capacity 1 a `Push` with a cancelled
context returns `context.Canceled`, not `ErrQueueFull`, whichever case `select` picks. -/
theorem push_full_canceled_counterexample :
    fullQueue.jobs.length = fullQueue.capacity ∧
      Push fullQueue Context.canceled zeroJob true
        = Outcome.returned (some Error.Canceled, fullQueue) ∧
      Push fullQueue Context.canceled zeroJob false
        = Outcome.returned (some Error.Canceled, fullQueue) ∧
      some Error.Canceled ≠ some Error.ErrQueueFull := by
  decide

/-- C11, amended: on a queue of capacity `C` that has not been closed and holds `C` jobs,
for every job, every context and every pick of `select`, `Push` returns at once (it
neither blocks nor panics) and leaves the queued jobs and their order unchanged; it
returns `ErrQueueFull` when the context is live and `ctx.Err()` when the context is
done. -/
theorem push_full (m : MemoryQueue) (ctx : Context) (job : EmailJob) (pick : Bool)
    (hfull : m.jobs.length = m.capacity) (hopen : m.closed = false) :
    (ctx = Context.live →
        Push m ctx job pick = Outcome.returned (some Error.ErrQueueFull, m)) ∧
      (ctx.isDone = true → Push m ctx job pick = Outcome.returned (ctx.Err, m)) := by
  rw [push_of_full m ctx job pick hfull hopen]
  constructor
  · intro h; rw [h]; rfl
  · intro h; rw [if_pos h]

/-- C11 amended, at the full queue of capacity 1 and a live context. -/
theorem push_full_witness :
    (fullQueue.jobs.length = fullQueue.capacity ∧ fullQueue.closed = false) ∧
      Push fullQueue Context.live zeroJob true
        = Outcome.returned (some Error.ErrQueueFull, fullQueue) :=
  ⟨⟨rfl, rfl⟩, (push_full fullQueue Context.live zeroJob true rfl rfl).1 rfl⟩

/-- A `Push` that returns nil found the queue open with room and appended the job. -/
theorem push_ok (m m1 : MemoryQueue) (ctx : Context) (job : EmailJob) (pick : Bool)
    (h : Push m ctx job pick = Outcome.returned (none, m1)) :
    m.closed = false ∧ m.jobs.length < m.capacity ∧
      m1 = { m with jobs := m.jobs ++ [job] } := by
  unfold Push at h
  split_ifs at h with h1 h2 h3
  · simp only [Outcome.returned.injEq, Prod.mk.injEq, true_and] at h
    have hc : m.closed = false := by simpa using h2
    simp only [sendReady, hc, Bool.false_or, Bool.and_eq_true, decide_eq_true_eq] at h1
    exact ⟨hc, h1.1, h.symm⟩
  · obtain ⟨e, he⟩ := err_of_isDone ctx h3
    simp [he] at h
  · simp at h

/-- With a live context a `Push` on an open queue with room returns nil. -/
theorem push_live (m : MemoryQueue) (job : EmailJob) (pick : Bool)
    (hopen : m.closed = false) (hroom : m.jobs.length < m.capacity) :
    Push m Context.live job pick
      = Outcome.returned (none, { m with jobs := m.jobs ++ [job] }) := by
  simp [Push, sendReady, hopen, hroom, Context.isDone]

/-- With a live context a `Pop` on a queue that holds a job returns the oldest job and
removes it. -/
theorem pop_live (m : MemoryQueue) (job : EmailJob) (rest : List EmailJob) (pick : Bool)
    (hjobs : m.jobs = job :: rest) :
    Pop m Context.live pick
      = Outcome.returned ((job, none), { m with jobs := rest }) := by
  simp [Pop, recvReady, hjobs, Context.isDone]

/-- Pushes that all returned nil leave the capacity and the closed flag alone and append
the jobs in order. -/
theorem pushMany_eq (calls : List (Context × Bool × EmailJob)) :
    ∀ m m1 : MemoryQueue, pushMany m calls = some m1 →
      m1 = { m with jobs := m.jobs ++ calls.map fun c => c.2.2 } := by
  induction calls with
  | nil =>
    intro m m1 h
    simp only [pushMany, Option.some.injEq] at h
    simp [← h]
  | cons c rest ih =>
    intro m m1 h
    obtain ⟨ctx, pick, job⟩ := c
    rw [pushMany] at h
    cases hp : Push m ctx job pick with
    | panics msg => rw [hp] at h; simp at h
    | blocks => rw [hp] at h; simp at h
    | returned v =>
      obtain ⟨e, m2⟩ := v
      rw [hp] at h
      cases e with
      | some e => simp at h
      | none =>
        simp only at h
        obtain ⟨-, -, rfl⟩ := push_ok m m2 ctx job pick hp
        rw [ih _ m1 h]
        simp

/-- Pushes with a live context into an open queue with enough room all return nil. -/
theorem pushMany_live (calls : List (Context × Bool × EmailJob)) :
    ∀ m : MemoryQueue, m.closed = false → m.jobs.length + calls.length ≤ m.capacity →
      (∀ c ∈ calls, c.1 = Context.live) → (pushMany m calls).isSome = true := by
  induction calls with
  | nil => intro m _ _ _; rfl
  | cons c rest ih =>
    intro m hopen hroom hlive
    obtain ⟨ctx, pick, job⟩ := c
    have hctx : ctx = Context.live := hlive (ctx, pick, job) (List.mem_cons_self _ _)
    subst hctx
    simp only [List.length_cons] at hroom
    rw [pushMany, push_live m job pick hopen (by omega)]
    apply ih
    · exact hopen
    · simp only [List.length_append, List.length_singleton]; omega
    · intro c hc; exact hlive c (List.mem_cons_of_mem _ hc)

/-- Pops with a live context, no more than there are jobs, return the oldest jobs in
order and leave the rest. -/
theorem popMany_live (pops : List (Context × Bool)) :
    ∀ m : MemoryQueue, pops.length ≤ m.jobs.length → (∀ c ∈ pops, c.1 = Context.live) →
      popMany m pops
        = some (m.jobs.take pops.length, { m with jobs := m.jobs.drop pops.length }) := by
  induction pops with
  | nil => intro m _ _; simp [popMany]
  | cons c rest ih =>
    intro m hlen hlive
    obtain ⟨ctx, pick⟩ := c
    have hctx : ctx = Context.live := hlive (ctx, pick) (List.mem_cons_self _ _)
    subst hctx
    cases hj : m.jobs with
    | nil => rw [hj] at hlen; simp at hlen
    | cons job more =>
      rw [hj] at hlen
      simp only [List.length_cons] at hlen
      rw [popMany, pop_live m job more pick hj]
      simp only
      rw [ih { m with jobs := more } (by simpa using hlen)
        (fun c hc => hlive c (List.mem_cons_of_mem _ hc))]
      simp

/-- C12: the in-memory queue is first in, first out.  On an empty open queue of any
capacity, pushes of `n` jobs with a live context succeed when `n` is within the capacity;
and whenever the pushes of `j1..jn` all returned nil (whatever their contexts), `n`
subsequent pops with a live context return `j1..jn` in the order they were pushed, each
with a nil error, and leave the queue empty. -/
theorem fifo (capacity : Nat) (calls : List (Context × Bool × EmailJob))
    (pops : List (Context × Bool)) (hlive : ∀ c ∈ pops, c.1 = Context.live)
    (hlen : pops.length = calls.length) :
    ((∀ c ∈ calls, c.1 = Context.live) → calls.length ≤ capacity →
        (pushMany { capacity := capacity, jobs := [], closed := false } calls).isSome = true) ∧
      ∀ m1 : MemoryQueue,
        pushMany { capacity := capacity, jobs := [], closed := false } calls = some m1 →
          popMany m1 pops
            = some (calls.map (fun c => c.2.2),
                { capacity := capacity, jobs := [], closed := false }) := by
  constructor
  · intro hl hn
    exact pushMany_live calls _ rfl (by simpa using hn) hl
  · intro m1 h
    have h1 := pushMany_eq calls _ m1 h
    subst h1
    rw [popMany_live pops _ (by simp [hlen]) hlive]
    simp [hlen]

/-- C12, at capacity 2 with the jobs `scenarioJob` and `zeroJob`. -/
theorem fifo_witness :
    ((∀ c ∈ [(Context.live, true), (Context.live, false)], c.1 = Context.live) ∧
        [(Context.live, true), (Context.live, false)].length
          = [(Context.live, true, scenarioJob), (Context.live, true, zeroJob)].length) ∧
      popMany
          { capacity := 2, jobs := [scenarioJob, zeroJob], closed := false }
          [(Context.live, true), (Context.live, false)]
        = some ([scenarioJob, zeroJob], { capacity := 2, jobs := [], closed := false }) :=
  ⟨⟨by decide, rfl⟩,
    (fifo 2 [(Context.live, true, scenarioJob), (Context.live, true, zeroJob)]
      [(Context.live, true), (Context.live, false)] (by decide) rfl).2 _ rfl⟩

/-- C13: on an empty open queue of capacity at least 1, with live contexts, `Push(j)`
returns nil and the `Pop` that follows returns a job equal to `j`, so equal in every
field, with a nil error, and leaves the queue empty again. -/
theorem push_pop_roundtrip (m : MemoryQueue) (job : EmailJob) (pick1 pick2 : Bool)
    (hempty : m.jobs = []) (hopen : m.closed = false) (hcap : 1 ≤ m.capacity) :
    Push m Context.live job pick1 = Outcome.returned (none, { m with jobs := [job] }) ∧
      Pop { m with jobs := [job] } Context.live pick2 = Outcome.returned ((job, none), m) := by
  constructor
  · rw [push_live m job pick1 hopen (by rw [hempty]; exact hcap), hempty]
    rfl
  · rw [pop_live { m with jobs := [job] } job [] pick2 rfl]
    simp [← hempty]

/-- C13, at an empty queue of capacity 1 and the job `scenarioJob`. -/
theorem push_pop_roundtrip_witness :
    (({ capacity := 1, jobs := [], closed := false } : MemoryQueue).jobs = [] ∧
        ({ capacity := 1, jobs := [], closed := false } : MemoryQueue).closed = false ∧
        1 ≤ ({ capacity := 1, jobs := [], closed := false } : MemoryQueue).capacity) ∧
      Push { capacity := 1, jobs := [], closed := false } Context.live scenarioJob true
        = Outcome.returned (none, fullQueue) ∧
      Pop fullQueue Context.live true
        = Outcome.returned ((scenarioJob, none),
            { capacity := 1, jobs := [], closed := false }) :=
  ⟨⟨rfl, rfl, by decide⟩,
    push_pop_roundtrip { capacity := 1, jobs := [], closed := false } scenarioJob true true
      rfl rfl (by decide)⟩

/-- C14, what the code does after `Close` (the claim asks for a non-nil error from every
later `Push` and `Pop`): `Close` on an open queue returns nil and sets the closed flag;
after it, with a live context, `Pop` on the drained queue returns the zero job with a nil
error, `Pop` on a queue that still holds a job returns that job with a nil error, and
`Push` panics instead of returning an error. -/
theorem after_close (capacity : Nat) (jobs : List EmailJob) (job : EmailJob) (pick : Bool) :
    Close { capacity := capacity, jobs := jobs, closed := false }
        = Outcome.returned (none, { capacity := capacity, jobs := jobs, closed := true }) ∧
      Pop { capacity := capacity, jobs := [], closed := true } Context.live pick
        = Outcome.returned ((zeroJob, none),
            { capacity := capacity, jobs := [], closed := true }) ∧
      Pop { capacity := capacity, jobs := job :: jobs, closed := true } Context.live pick
        = Outcome.returned ((job, none),
            { capacity := capacity, jobs := jobs, closed := true }) ∧
      Push { capacity := capacity, jobs := jobs, closed := true } Context.live job pick
        = Outcome.panics "send on closed channel" := by
  refine ⟨rfl, ?_, ?_, ?_⟩
  · simp [Pop, recvReady, Context.isDone]
  · simp [Pop, recvReady, Context.isDone]
  · simp [Push, sendReady, Context.isDone]

/-- C15, what the code does on a second `Close` (the claim asks that it return): the first
`Close` returns nil and sets the closed flag, the second panics. -/
theorem double_close (capacity : Nat) (jobs : List EmailJob) :
    Close { capacity := capacity, jobs := jobs, closed := false }
        = Outcome.returned (none, { capacity := capacity, jobs := jobs, closed := true }) ∧
      Close { capacity := capacity, jobs := jobs, closed := true }
        = Outcome.panics "close of closed channel" :=
  ⟨rfl, rfl⟩

/-- A `Pop` on an open queue that returns a nil error returns the oldest queued job and
removes exactly that job. -/
theorem pop_ok (m m1 : MemoryQueue) (ctx : Context) (pick : Bool) (job : EmailJob)
    (hopen : m.closed = false)
    (h : Pop m ctx pick = Outcome.returned ((job, none), m1)) :
    m.jobs = job :: m1.jobs ∧ m1 = { m with jobs := m1.jobs } := by
  unfold Pop at h
  split_ifs at h with h1 h2
  · cases hj : m.jobs with
    | nil => simp [recvReady, hopen, hj] at h1
    | cons j rest =>
      rw [hj] at h
      simp only [Outcome.returned.injEq, Prod.mk.injEq, and_true] at h
      obtain ⟨rfl, rfl⟩ := h
      exact ⟨rfl, rfl⟩
  · obtain ⟨e, he⟩ := err_of_isDone ctx h2
    simp [he] at h

/-- The invariant of a sequence of `Push` and `Pop` calls on an open queue within its
capacity: the queue stays open and within capacity, and the jobs queued at the end plus
the successful pops equal the jobs queued at the start plus the successful pushes. -/
theorem run_invariant (calls : List Call) :
    ∀ m : MemoryQueue, m.closed = false → m.jobs.length ≤ m.capacity →
      (run m calls).2.closed = false ∧ (run m calls).2.capacity = m.capacity ∧
        (run m calls).2.jobs.length ≤ m.capacity ∧
        (run m calls).2.jobs.length + poppedOk (run m calls).1
          = m.jobs.length + pushedOk (run m calls).1 := by
  induction calls with
  | nil => intro m hopen hlen; simp [run, poppedOk, pushedOk, hopen, hlen]
  | cons c rest ih =>
    intro m hopen hlen
    cases c with
    | push ctx pick job =>
      rw [run]
      cases hp : Push m ctx job pick with
      | panics msg => simp [poppedOk, pushedOk, hopen, hlen]
      | blocks => simp [poppedOk, pushedOk, hopen, hlen]
      | returned v =>
        obtain ⟨e, m1⟩ := v
        cases e with
        | none =>
          obtain ⟨-, hroom, rfl⟩ := push_ok m m1 ctx job pick hp
          obtain ⟨h1, h2, h3, h4⟩ := ih { m with jobs := m.jobs ++ [job] } hopen
            (by simp only [List.length_append, List.length_singleton]; omega)
          simp only [List.length_append, List.length_singleton] at h4
          refine ⟨h1, h2, h3, ?_⟩
          simp only [poppedOk, pushedOk]
          omega
        | some e =>
          have hm : m1 = m := by
            unfold Push at hp
            split_ifs at hp with a b c
            · simp at hp
            · simp only [Outcome.returned.injEq, Prod.mk.injEq] at hp; exact hp.2.symm
            · simp only [Outcome.returned.injEq, Prod.mk.injEq] at hp; exact hp.2.symm
          subst hm
          obtain ⟨h1, h2, h3, h4⟩ := ih m1 hopen hlen
          exact ⟨h1, h2, h3, by simpa only [poppedOk, pushedOk] using h4⟩
    | pop ctx pick =>
      rw [run]
      cases hp : Pop m ctx pick with
      | panics msg => simp [poppedOk, pushedOk, hopen, hlen]
      | blocks => simp [poppedOk, pushedOk, hopen, hlen]
      | returned v =>
        obtain ⟨⟨job, e⟩, m1⟩ := v
        cases e with
        | none =>
          obtain ⟨hj, hm1⟩ := pop_ok m m1 ctx pick job hopen hp
          have hopen1 : m1.closed = false := by rw [hm1]; exact hopen
          have hcap1 : m1.capacity = m.capacity := by rw [hm1]
          have hlen1 : m1.jobs.length + 1 = m.jobs.length := by rw [hj]; rfl
          obtain ⟨h1, h2, h3, h4⟩ := ih m1 hopen1 (by omega)
          dsimp only
          refine ⟨h1, by omega, by omega, ?_⟩
          simp only [poppedOk, pushedOk]
          omega
        | some e =>
          have hm : m1 = m := by
            unfold Pop at hp
            split_ifs at hp with a b
            · cases hj : m.jobs with
              | nil => rw [hj] at hp; simp at hp
              | cons j more => rw [hj] at hp; simp at hp
            · simp only [Outcome.returned.injEq, Prod.mk.injEq] at hp; exact hp.2.symm
          subst hm
          obtain ⟨h1, h2, h3, h4⟩ := ih m1 hopen hlen
          exact ⟨h1, h2, h3, by simpa only [poppedOk, pushedOk] using h4⟩

/-- C19: for every sequence of `Push` and `Pop` calls on a queue of capacity `C` that
starts empty, `Size` returns a nil error and the number of jobs queued, which is the
number of pushes that returned nil minus the number of pops that returned a job with a
nil error, lies between 0 and `C`, and is 0 once as many jobs were popped as pushed; and
every `Pop` on such a queue that returns a job with a nil error returns the oldest queued
job and removes exactly that job. -/
theorem size_counts (capacity : Nat) (calls : List Call) :
    (Size (run { capacity := capacity, jobs := [], closed := false } calls).2).2 = none ∧
      (Size (run { capacity := capacity, jobs := [], closed := false } calls).2).1
        = (pushedOk (run { capacity := capacity, jobs := [], closed := false } calls).1 : Int)
          - (poppedOk (run { capacity := capacity, jobs := [], closed := false } calls).1 : Int) ∧
      0 ≤ (Size (run { capacity := capacity, jobs := [], closed := false } calls).2).1 ∧
      (Size (run { capacity := capacity, jobs := [], closed := false } calls).2).1 ≤ capacity ∧
      (pushedOk (run { capacity := capacity, jobs := [], closed := false } calls).1
          = poppedOk (run { capacity := capacity, jobs := [], closed := false } calls).1 →
        (Size (run { capacity := capacity, jobs := [], closed := false } calls).2).1 = 0) ∧
      ∀ (m m1 : MemoryQueue) (ctx : Context) (pick : Bool) (job : EmailJob),
        m.closed = false → Pop m ctx pick = Outcome.returned ((job, none), m1) →
          m.jobs = job :: m1.jobs ∧ (Size m1).1 = (Size m).1 - 1 := by
  obtain ⟨-, -, h3, h4⟩ := run_invariant calls
    { capacity := capacity, jobs := [], closed := false } rfl (Nat.zero_le _)
  simp only [List.length_nil, Nat.zero_add] at h3 h4
  simp only [Size]
  refine ⟨trivial, by omega, by omega, by exact_mod_cast h3, fun h => by omega, ?_⟩
  intro m m1 ctx pick job hopen hp
  obtain ⟨hj, -⟩ := pop_ok m m1 ctx pick job hopen hp
  refine ⟨hj, ?_⟩
  rw [hj]
  simp only [List.length_cons]
  push_cast
  ring

/-- C19, at capacity 1: push, push (full), pop, pop with a cancelled context on the
empty queue.  One push and one pop succeeded, and the size is 0. -/
theorem size_counts_witness :
    ((pushedOk (run { capacity := 1, jobs := [], closed := false }
          [Call.push Context.live true scenarioJob, Call.push Context.live true zeroJob,
           Call.pop Context.live true, Call.pop Context.canceled true]).1
        = poppedOk (run { capacity := 1, jobs := [], closed := false }
          [Call.push Context.live true scenarioJob, Call.push Context.live true zeroJob,
           Call.pop Context.live true, Call.pop Context.canceled true]).1) ∧
      (run { capacity := 1, jobs := [], closed := false }
          [Call.push Context.live true scenarioJob, Call.push Context.live true zeroJob,
           Call.pop Context.live true, Call.pop Context.canceled true]).1
        = [Event.pushed none, Event.pushed (some Error.ErrQueueFull),
           Event.popped scenarioJob none, Event.popped zeroJob (some Error.Canceled)]) ∧
      (Size (run { capacity := 1, jobs := [], closed := false }
          [Call.push Context.live true scenarioJob, Call.push Context.live true zeroJob,
           Call.pop Context.live true, Call.pop Context.canceled true]).2).1 = 0 :=
  ⟨⟨by decide, by decide⟩,
    (size_counts 1 [Call.push Context.live true scenarioJob,
      Call.push Context.live true zeroJob, Call.pop Context.live true,
      Call.pop Context.canceled true]).2.2.2.2.1 (by decide)⟩

end queue

namespace jobqueue

/-- C16, what the code does where the claim promises `now ≥ nextRetryAt`: the method reads
the clock twice, first for `After` and, when that fails, again for `Equal`, so it returns
true exactly when `nextRetryAt` is earlier than the first reading or equal to the second.
A job created by `CreateJobWithRetry` at clock reading 100 and asked about at the readings
100 and then 101 is reported as not ready, although `nextRetryAt ≤ now` at both. -/
theorem isReadyForRetry_two_readings :
    (∀ (rm : RetryManager) (job : EmailJob) (now1 now2 : Int),
        IsReadyForRetry rm job now1 now2 = true
          ↔ job.NextRetryAt < now1 ∨ job.NextRetryAt = now2) ∧
      IsReadyForRetry (NewRetryManager none)
          (CreateJobWithRetry (NewRetryManager none) "a@example.org" "hello" "text" 100 100)
          100 101 = false ∧
      (CreateJobWithRetry (NewRetryManager none) "a@example.org" "hello" "text" 100
          100).NextRetryAt ≤ 100 ∧
      (100 : Int) ≤ 101 := by
  refine ⟨?_, by decide, by decide, by decide⟩
  intro rm job now1 now2
  simp only [IsReadyForRetry, Bool.or_eq_true, decide_eq_true_eq]
  constructor <;> intro h <;> omega

end jobqueue

namespace mailer

open jobqueue

/-- Every job whose re-push `ScheduleRetry` schedules is the caller's job with the retry
count increased by one, the error text as last error and a new `nextRetryAt`. -/
theorem scheduleRetry_repush (d : Dispatcher) (job job1 : EmailJob) (err : String)
    (unixNano now untilNow : Int) (effects : List Effect)
    (h : ScheduleRetry d job err unixNano now untilNow = some (job1, effects)) :
    ∀ j ∈ repushes effects, ∃ delay : Int,
      j = { job with RetryCount := job.RetryCount + 1, LastError := err,
                     NextRetryAt := now + delay } := by
  unfold ScheduleRetry at h
  split_ifs at h with hs
  · simp only [Option.some.injEq, Prod.mk.injEq] at h
    obtain ⟨-, rfl⟩ := h
    intro j hj
    simp [repushes] at hj
  · simp only [PrepareRetry, add_sub_cancel_right] at h
    cases hc : CalculateNextRetryDelay d.retryManager job.RetryCount unixNano with
    | none => rw [hc] at h; simp at h
    | some delay =>
      rw [hc] at h
      simp only [Option.some.injEq, Prod.mk.injEq] at h
      obtain ⟨-, rfl⟩ := h
      intro j hj
      simp only [repushes, List.mem_singleton] at hj
      exact ⟨delay, hj⟩

/-- The re-pushes among concatenated actions. -/
theorem repushes_append (a b : List Effect) : repushes (a ++ b) = repushes a ++ repushes b := by
  induction a with
  | nil => rfl
  | cons e rest ih => cases e <;> simp [repushes, ih]

/-- The template step of `processJob` for a job without a template id leaves the job
alone; for a job with one it replaces the body by the rendered text, and panics when the
template could not be parsed. -/
theorem processJob_failed_send (w : Worker) (job : EmailJob) (rendering : Rendering)
    (err : String) (c : Readings) (job1 : EmailJob) (effects : List Effect)
    (h : processJob w job rendering (some err) c = some (job1, effects)) :
    ∃ (body : String) (log sched : List Effect),
      ScheduleRetry w.retryScheduler { job with Body := body } err c.unixNano c.now c.untilNow
        = some (job1, sched) ∧
      repushes effects = repushes sched ∧
      (job.TemplateID = "" → body = job.Body) ∧
      (job.TemplateID ≠ "" → ∃ failed, rendering = Rendering.executed body failed) ∧
      effects = [Effect.logInfo "Starting to process job", Effect.logInfo "Processing email"]
        ++ log ++ [Effect.deliver { job with Body := body },
                   Effect.logError "Failed to send email"] ++ sched := by
  unfold processJob at h
  by_cases ht : job.TemplateID = ""
  · simp only [ht, ne_eq, not_true_eq_false, if_false] at h
    cases hs : ScheduleRetry w.retryScheduler job err c.unixNano c.now c.untilNow with
    | none => rw [hs] at h; simp at h
    | some r =>
      obtain ⟨j, sched⟩ := r
      rw [hs] at h
      simp only [Option.some.injEq, Prod.mk.injEq] at h
      obtain ⟨rfl, rfl⟩ := h
      refine ⟨job.Body, [], sched, hs, ?_, fun _ => rfl, fun hne => absurd ht hne, rfl⟩
      simp [repushes_append, repushes]
  · simp only [ne_eq, ht, not_false_eq_true, if_true] at h
    cases rendering with
    | parseFailed => simp at h
    | executed output failed =>
      simp only at h
      cases hs : ScheduleRetry w.retryScheduler { job with Body := output } err c.unixNano
          c.now c.untilNow with
      | none => rw [hs] at h; simp at h
      | some r =>
        obtain ⟨j, sched⟩ := r
        rw [hs] at h
        simp only [Option.some.injEq, Prod.mk.injEq] at h
        obtain ⟨rfl, rfl⟩ := h
        refine ⟨output, _, sched, hs, ?_, fun h0 => absurd h0 ht, fun _ => ⟨failed, rfl⟩, rfl⟩
        cases failed <;> simp [repushes_append, repushes]

/-- A job with a template id whose template renders and whose delivery fails: the retry
is scheduled for the job with the rendered body. -/
theorem processJob_of_rendered (w : Worker) (job job1 : EmailJob) (output err : String)
    (c : Readings) (sched : List Effect) (ht : job.TemplateID ≠ "")
    (hs : ScheduleRetry w.retryScheduler { job with Body := output } err c.unixNano c.now
      c.untilNow = some (job1, sched)) :
    processJob w job (Rendering.executed output false) (some err) c
      = some (job1,
          [Effect.logInfo "Starting to process job", Effect.logInfo "Processing email",
           Effect.deliver { job with Body := output },
           Effect.logError "Failed to send email"] ++ sched) := by
  unfold processJob
  simp [ht, hs]

/-- C17, as stated, fails: a job with a template id and an empty body, whose template
renders to `<p>Hi</p>` and whose delivery fails, is re-pushed with the rendered text as
its body. -/
theorem template_body_counterexample :
    ∃ (job1 : EmailJob) (effects : List Effect),
      processJob (workerOf (NewDispatcher 2) 1) templateJob
          (Rendering.executed "<p>Hi</p>" false) (some "refused")
          { unixNano := 12345, now := 5, untilNow := 6 } = some (job1, effects) ∧
      repushes effects = [job1] ∧ job1.Body = "<p>Hi</p>" ∧ templateJob.Body = "" ∧
      job1.Body ≠ templateJob.Body := by
  have hs := scheduleRetry_of_delay (NewDispatcher 2)
    { templateJob with Body := "<p>Hi</p>" } "refused" 12345 5 6 54000012345 (by decide)
    calculate_default_example
  have hp := processJob_of_rendered (workerOf (NewDispatcher 2) 1) templateJob _ "<p>Hi</p>"
    "refused" { unixNano := 12345, now := 5, untilNow := 6 } _ (by decide) hs
  exact ⟨_, _, hp, rfl, rfl, rfl, by decide⟩

/-- C17, amended: when a worker's delivery of a dequeued job fails and a retry is
scheduled, the job re-pushed has the same destination, subject, maxRetries, createdAt,
template id, template data and attachments as the dequeued job, its retry count is one
higher and its last error is the error text; its body is unchanged when the job carries
no template id, and is the rendered template when it carries one. -/
theorem retry_frame (w : Worker) (job job1 : EmailJob) (rendering : Rendering)
    (err : String) (c : Readings) (effects : List Effect)
    (h : processJob w job rendering (some err) c = some (job1, effects)) :
    ∀ j ∈ repushes effects,
      j.To = job.To ∧ j.Subject = job.Subject ∧ j.MaxRetries = job.MaxRetries ∧
        j.CreatedAt = job.CreatedAt ∧ j.TemplateID = job.TemplateID ∧
        j.TemplateData = job.TemplateData ∧ j.Attachments = job.Attachments ∧
        j.RetryCount = job.RetryCount + 1 ∧ j.LastError = err ∧
        (job.TemplateID = "" → j.Body = job.Body) ∧
        (job.TemplateID ≠ "" →
          ∃ output failed, rendering = Rendering.executed output failed ∧ j.Body = output) := by
  obtain ⟨body, log, sched, hs, hre, h1, h2, -⟩ :=
    processJob_failed_send w job rendering err c job1 effects h
  intro j hj
  rw [hre] at hj
  obtain ⟨delay, rfl⟩ := scheduleRetry_repush _ _ _ _ _ _ _ _ hs j hj
  refine ⟨rfl, rfl, rfl, rfl, rfl, rfl, rfl, rfl, rfl, h1, ?_⟩
  intro hne
  obtain ⟨failed, hr⟩ := h2 hne
  exact ⟨body, failed, hr, rfl⟩

/-- C17 amended, at the template job of the counterexample: the re-pushed job keeps the
destination and the template id, and carries the rendered body. -/
theorem retry_frame_witness :
    processJob (workerOf (NewDispatcher 2) 1) templateJob
        (Rendering.executed "<p>Hi</p>" false) (some "refused")
        { unixNano := 12345, now := 5, untilNow := 6 }
      = some ({ templateJob with Body := "<p>Hi</p>", RetryCount := 1, LastError := "refused",
                                 NextRetryAt := 5 + 54000012345 },
          [Effect.logInfo "Starting to process job", Effect.logInfo "Processing email",
           Effect.deliver { templateJob with Body := "<p>Hi</p>" },
           Effect.logError "Failed to send email",
           Effect.logInfo "Retry scheduled",
           Effect.afterFunc (Until (5 + 54000012345) 6)
             { templateJob with Body := "<p>Hi</p>", RetryCount := 1, LastError := "refused",
                                NextRetryAt := 5 + 54000012345 }]) ∧
      ({ templateJob with Body := "<p>Hi</p>", RetryCount := 1, LastError := "refused",
                          NextRetryAt := 5 + 54000012345 } : EmailJob).To = templateJob.To :=
  have hp := processJob_of_rendered (workerOf (NewDispatcher 2) 1) templateJob _ "<p>Hi</p>"
    "refused" { unixNano := 12345, now := 5, untilNow := 6 } _ (by decide)
    (scheduleRetry_of_delay (NewDispatcher 2) { templateJob with Body := "<p>Hi</p>" }
      "refused" 12345 5 6 54000012345 (by decide) calculate_default_example)
  ⟨hp, (retry_frame (workerOf (NewDispatcher 2) 1) templateJob _ _ "refused" _ _ hp _
    (List.mem_singleton.mpr rfl)).1⟩

/-- With a done context `Pop` returns at once: a job with a nil error, or the context's
error, and the context is not touched. -/
theorem pop_of_done (m : queue.MemoryQueue) (ctx : queue.Context) (pick : Bool)
    (hdone : ctx.isDone = true) :
    ∃ v, queue.Pop m ctx pick = queue.Outcome.returned v := by
  unfold queue.Pop
  split_ifs
  · cases m.jobs <;> exact ⟨_, rfl⟩
  · exact ⟨_, rfl⟩

/-- C18, as stated, fails: `Stop` on a state whose queue holds a job cancels the context
and closes the queue; a worker that is then at its call of `Pop`, where `select` picks the
channel case, obtains that job and delivers it, a job it did not hold when `Stop` was
called. -/
theorem dequeue_after_stop_counterexample :
    Stop busyWorld = some (stoppedWorld, [Effect.logInfo "Stopping dispatcher and all workers"]) ∧
      ∃ r : StepResult,
        step (workerOf (NewDispatcher 2) 1) WorkerState.popping stoppedWorld channelPick
          = some r ∧
        r.obtained = some scenarioJob ∧ deliveries r.effects = [scenarioJob] := by
  refine ⟨rfl, ?_⟩
  have hpop : queue.Pop stoppedWorld.queue stoppedWorld.ctx channelPick.pick
      = queue.Outcome.returned ((scenarioJob, none),
          { capacity := 10, jobs := [], closed := true }) := by decide
  have hready : IsReadyForRetry (workerOf (NewDispatcher 2) 1).retryManager scenarioJob
      channelPick.now1 channelPick.now2 = true := by decide
  have hproc : processJob (workerOf (NewDispatcher 2) 1) scenarioJob channelPick.rendering
      channelPick.sendErr channelPick.retry
      = some (scenarioJob,
          [Effect.logInfo "Starting to process job", Effect.logInfo "Processing email",
           Effect.deliver scenarioJob, Effect.logInfo "Successfully sent email"]) := by
    unfold processJob
    simp [channelPick, scenarioJob, CreateJobWithRetry]
  refine ⟨{ state := WorkerState.waiting,
            world := { stoppedWorld with
              queue := { capacity := 10, jobs := [], closed := true } },
            obtained := some scenarioJob,
            effects := [Effect.logInfo "Starting to process job",
              Effect.logInfo "Processing email", Effect.deliver scenarioJob,
              Effect.logInfo "Successfully sent email"] }, ?_, rfl, rfl⟩
  simp only [step, hpop, handleJob, hready, hproc, Bool.not_true, Bool.false_eq_true, if_false]

/-- C18, amended: `Stop` leaves the context done and the queue closed.  In every state
whose context is done, a worker at the top of its loop goes to the stopped state without
calling `Pop` and without any action but the shutdown log; a worker at its call of `Pop`
returns from it at once, does not block, and is back at the top of the loop with the
context still done, having obtained at most the one job of this call.  So no worker
obtains more than one job after `Stop`, and only one that had entered `Pop`. -/
theorem after_stop (world world1 : World) (effects : List Effect)
    (hstop : Stop world = some (world1, effects)) :
    world1.ctx.isDone = true ∧ world1.queue.closed = true ∧
      (∀ (w : Worker) (i : StepInput) (wd : World), wd.ctx.isDone = true →
        step w WorkerState.waiting wd i
          = some { state := WorkerState.stopped, world := wd, obtained := none,
                   effects := [Effect.logInfo "Worker shutting down"] }) ∧
      ∀ (w : Worker) (i : StepInput) (wd : World) (r : StepResult), wd.ctx.isDone = true →
        step w WorkerState.popping wd i = some r →
          r.state = WorkerState.waiting ∧ r.world.ctx = wd.ctx := by
  have hdone : ∀ c : queue.Context, (cancel c).isDone = true := by
    intro c; cases c <;> rfl
  refine ⟨?_, ?_, ?_, ?_⟩
  · unfold Stop queue.Close at hstop
    split_ifs at hstop with hc
    simp only [Option.some.injEq, Prod.mk.injEq] at hstop
    rw [← hstop.1]
    exact hdone _
  · unfold Stop queue.Close at hstop
    split_ifs at hstop with hc
    simp only [Option.some.injEq, Prod.mk.injEq] at hstop
    rw [← hstop.1]
  · intro w i wd hd
    simp [step, hd]
  · intro w i wd r hd hr
    obtain ⟨v, hv⟩ := pop_of_done wd.queue wd.ctx i.pick hd
    obtain ⟨⟨job, e⟩, q⟩ := v
    simp only [step, hv] at hr
    cases e with
    | none =>
      simp only at hr
      cases hh : handleJob w job i with
      | none => rw [hh] at hr; simp at hr
      | some effs =>
        rw [hh] at hr
        simp only [Option.some.injEq] at hr
        rw [← hr]
        exact ⟨rfl, rfl⟩
    | some e =>
      simp only at hr
      split_ifs at hr <;>
        · simp only [Option.some.injEq] at hr
          rw [← hr]
          exact ⟨rfl, rfl⟩

/-- C18 amended, at the state `Stop` makes of `busyWorld`: a worker at the top of its loop
stops without obtaining a job. -/
theorem after_stop_witness :
    Stop busyWorld = some (stoppedWorld, [Effect.logInfo "Stopping dispatcher and all workers"]) ∧
      step (workerOf (NewDispatcher 2) 1) WorkerState.waiting stoppedWorld channelPick
        = some { state := WorkerState.stopped, world := stoppedWorld, obtained := none,
                 effects := [Effect.logInfo "Worker shutting down"] } :=
  ⟨rfl, (after_stop busyWorld stoppedWorld _ rfl).2.2.1 _ _ _ rfl⟩

/-- C20: a worker that dequeues a job whose `nextRetryAt` is later than both clock
readings of the readiness check performs exactly two actions: a debug log and one
`time.AfterFunc` whose callback pushes the job, unmodified in every field, after the delay
`time.Until(job.NextRetryAt)`, which is `job.NextRetryAt - now` when that fits a
`time.Duration`.  There is no delivery and no call of the retry scheduler, and the worker
is back at the top of its loop. -/
theorem not_ready_deferred (w : Worker) (job : EmailJob) (i : StepInput)
    (h1 : i.now1 < job.NextRetryAt) (h2 : i.now2 < job.NextRetryAt) :
    handleJob w job i
        = some [Effect.logDebug "Job not ready for retry, delaying",
                Effect.afterFunc (Until job.NextRetryAt i.untilNow) job] ∧
      deliveries [Effect.logDebug "Job not ready for retry, delaying",
                  Effect.afterFunc (Until job.NextRetryAt i.untilNow) job] = [] ∧
      repushes [Effect.logDebug "Job not ready for retry, delaying",
                Effect.afterFunc (Until job.NextRetryAt i.untilNow) job] = [job] ∧
      (-(2 ^ 63) ≤ job.NextRetryAt - i.untilNow → job.NextRetryAt - i.untilNow ≤ 2 ^ 63 - 1 →
        Until job.NextRetryAt i.untilNow = job.NextRetryAt - i.untilNow) ∧
      ∀ (wd : World) (rest : List EmailJob), wd.ctx = queue.Context.live →
        wd.queue.jobs = job :: rest →
          step w WorkerState.popping wd i
            = some { state := WorkerState.waiting,
                     world := { wd with queue := { wd.queue with jobs := rest } },
                     obtained := some job,
                     effects := [Effect.logDebug "Job not ready for retry, delaying",
                       Effect.afterFunc (Until job.NextRetryAt i.untilNow) job] } := by
  have hnot : IsReadyForRetry w.retryManager job i.now1 i.now2 = false := by
    simp only [IsReadyForRetry, Bool.or_eq_false_iff, decide_eq_false_iff_not]
    omega
  have hh : handleJob w job i
      = some [Effect.logDebug "Job not ready for retry, delaying",
              Effect.afterFunc (Until job.NextRetryAt i.untilNow) job] := by
    simp [handleJob, hnot]
  refine ⟨hh, rfl, rfl, ?_, ?_⟩
  · intro hlo hhi
    unfold Until
    rw [min_eq_right hhi, max_eq_right hlo]
  · intro wd rest hctx hjobs
    simp only [step, hctx, queue.pop_live wd.queue job rest i.pick hjobs, hh]

/-- C20, at a job due at reading 100 that a worker dequeues at reading 5. -/
theorem not_ready_deferred_witness :
    (channelPick.now1 < ({ scenarioJob with NextRetryAt := 100 } : EmailJob).NextRetryAt ∧
        channelPick.now2 < ({ scenarioJob with NextRetryAt := 100 } : EmailJob).NextRetryAt) ∧
      handleJob (workerOf (NewDispatcher 2) 1) { scenarioJob with NextRetryAt := 100 }
          channelPick
        = some [Effect.logDebug "Job not ready for retry, delaying",
                Effect.afterFunc 95 { scenarioJob with NextRetryAt := 100 }] :=
  ⟨⟨by decide, by decide⟩,
    (not_ready_deferred (workerOf (NewDispatcher 2) 1) { scenarioJob with NextRetryAt := 100 }
      channelPick (by decide) (by decide)).1⟩

end mailer

namespace jobqueue

/-- The value the method returns where it does not panic although the capped delay is
not a delay: with base delay 0 and retry count 1100 the power overflows, the product
`0 * Inf` is a NaN, `time.Duration` turns it into the least `int64`, and the jitter is
applied to that.  At the clock reading 946684807000012346 the result is
-7354350026169285830 ns. -/
theorem calculate_nan_example :
    CalculateNextRetryDelay { config := zeroBaseConfig } 1100 946684807000012346
      = some (-7354350026169285830) := by
  have hp : mathPow ({ config := zeroBaseConfig } : RetryManager).config.BackoffMultiple 1100
      = Float64.posInf :=
    mathPow_of_le _ _ (by norm_num [zeroBaseConfig, DefaultRetryConfig])
      (by norm_num [zeroBaseConfig, DefaultRetryConfig])
      (by norm_num [zeroBaseConfig, DefaultRetryConfig, abs_of_pos])
  have hb : ((float64OfInt ({ config := zeroBaseConfig } : RetryManager).config.BaseDelay
      : Int) : ℚ) = 0 := by
    have : float64OfInt ({ config := zeroBaseConfig } : RetryManager).config.BaseDelay = 0 := by
      decide
    rw [this]
    norm_num
  have hd : cappedDelay { config := zeroBaseConfig } 1100 = -(2 ^ 63) := by
    rw [cappedDelay, hp, hb]
    simp [Float64.scale, Float64.gt, Float64.toDuration]
  have hj : jitterAmplitude (-(2 ^ 63)) = -922337203685477632 := by
    have h1 : float64OfInt (-(2 ^ 63)) = -(2 ^ 63) := by decide
    have h2 : float64OfInt (-(2 ^ 63) * 3602879701896397)
        = -33230699894622898667269583877963776 := by decide
    have h3 : truncate (((-33230699894622898667269583877963776 : Int) : ℚ) / 2 ^ 55)
        = -922337203685477632 := by
      have e : ((-33230699894622898667269583877963776 : Int) : ℚ) / 2 ^ 55
          = ((-922337203685477632 : Int) : ℚ) := by norm_num
      rw [e, truncate_intCast]
    rw [jitterAmplitude, h1, mulTenth, h2,
      durationOfFloat_of_range (by rw [h3]; decide) (by rw [h3]; decide), h3]
  rw [calculate_of_jitter _ _ _ rfl, hd, hj]
  decide

/-- C21, what the code does where the claim promises a duration: with jitter enabled the
method panics on the division `% int64(jitter*2)` whenever the capped delay is below 10
nanoseconds.  So for base delay 0 (at every retry count from 0 to 1023 and every clock
reading), for cap 0 (at every retry count and clock reading), and for base delay 5ns (at
retry count 0 and every clock reading). -/
theorem jitter_divides_by_zero :
    (∀ (n : Fin 1024) (unixNano : Int),
        CalculateNextRetryDelay { config := zeroBaseConfig } ((n : Nat) : Int) unixNano
          = none) ∧
      (∀ r unixNano : Int,
        CalculateNextRetryDelay { config := zeroCapConfig } r unixNano = none) ∧
      ∀ unixNano : Int,
        CalculateNextRetryDelay { config := tinyBaseConfig } 0 unixNano = none := by
  refine ⟨?_, ?_, ?_⟩
  · intro n u
    have hm : ({ config := zeroBaseConfig } : RetryManager).config.BackoffMultiple = 2 := rfl
    have hlt : |({ config := zeroBaseConfig } : RetryManager).config.BackoffMultiple
        ^ (((n : Nat) : Int))| < 2 ^ 1024 := by
      rw [hm, zpow_natCast, abs_of_pos (by positivity)]
      exact pow_lt_pow_right₀ (by norm_num) n.isLt
    have hd : cappedDelay { config := zeroBaseConfig } ((n : Nat) : Int) = 0 := by
      rw [cappedDelay_eval _ _ 0 1800000000000 0 (by decide) (by decide)
        (by rw [hm]; norm_num) hlt (by norm_num)]
      decide
    exact calculate_none_of_small _ _ _ rfl (by rw [hd]) (by rw [hd]; decide)
  · intro r u
    have hk : (0 : ℚ) < ({ config := zeroCapConfig } : RetryManager).config.BackoffMultiple := by
      norm_num [zeroCapConfig, DefaultRetryConfig]
    obtain ⟨h0, hc, -, -⟩ := cappedDelay_of_nonneg { config := zeroCapConfig } r
      (by decide) (by decide) (by decide) hk.le (Or.inr hk)
    have hz : ({ config := zeroCapConfig } : RetryManager).config.MaxDelay = 0 := rfl
    rw [hz] at hc
    exact calculate_none_of_small _ _ _ rfl h0 (by omega)
  · intro u
    have hd : cappedDelay { config := tinyBaseConfig } 0 = 5 := by
      rw [cappedDelay_eval _ _ 5 1800000000000 5 (by decide) (by decide) (by norm_num)
        (by norm_num) (by norm_num)]
      decide
    exact calculate_none_of_small _ _ _ rfl (by rw [hd]; decide) (by rw [hd]; decide)

end jobqueue
